import Mathlib

/-
Verification of the annotation dataset engine of a YOLO labeling tool.

The development shallowly embeds the engine's core operations over exact
rational arithmetic:
  * the per-annotation clamping performed on load (gui.py, load_image) and on
    save (gui.py, save_annotations), together with the 6-decimal formatting
    used by the label-file writer;
  * the geometry utilities (gui.py, boxes overlap / IoU, duplicate detection);
  * the undo machinery (gui.py, undo_action) over an explicit editor state;
  * the batch auto-annotation worker (gui.py, auto_annotate_all);
  * the custom query evaluator (gui.py, show_query_dialog);
  * the dataset reducer (yolo_annotator/utils.py, reduce_dataset).
Label files are modelled post-parsing: a file is a list of well-formed
annotation records, a missing file is none.
-/

namespace YoloTool

/-- One YOLO annotation record: class id and normalized center-form box. -/
@[ext]
structure Ann where
  cid : Int
  cx : Rat
  cy : Rat
  w : Rat
  h : Rat
deriving DecidableEq, Repr

/-- Rounding of a value to 6 decimal places, the effect of the writer's
6-decimal float formatting followed by re-parsing. -/
def round6 (q : Rat) : Rat := (round (q * 1000000) : Int) / 1000000

/-- Clamping of a coordinate into [0,1], as max(0.0, min(1.0, c)). -/
def clamp01 (q : Rat) : Rat := max 0 (min 1 q)

/-- The sanitize step of load_image: clamp the center into [0,1], then derive
the dimensions from max(0.001, min(abs w, 2*cx, 2*(1-cx))) and symmetrically
for h. -/
def clampLoad (a : Ann) : Ann :=
  let ncx := clamp01 a.cx
  let ncy := clamp01 a.cy
  let nw := max (1/1000) (min |a.w| (min (2 * ncx) (2 * (1 - ncx))))
  let nh := max (1/1000) (min |a.h| (min (2 * ncy) (2 * (1 - ncy))))
  ⟨a.cid, ncx, ncy, nw, nh⟩

/-- The per-annotation clamp of save_annotations: clamp the center into [0,1],
then w = max(0.001, min(w, 2*cx, 2*(1-cx))) (no absolute value), h symmetric. -/
def clampSave (a : Ann) : Ann :=
  let ncx := clamp01 a.cx
  let ncy := clamp01 a.cy
  let nw := max (1/1000) (min a.w (min (2 * ncx) (2 * (1 - ncx))))
  let nh := max (1/1000) (min a.h (min (2 * ncy) (2 * (1 - ncy))))
  ⟨a.cid, ncx, ncy, nw, nh⟩

/-- The record save_annotations writes for one annotation: the clamped values,
formatted to 6 decimal places. -/
def writeAnn (a : Ann) : Ann :=
  let c := clampSave a
  ⟨c.cid, round6 c.cx, round6 c.cy, round6 c.w, round6 c.h⟩

/-- load_image on a parsed raw annotation list: sanitize every record. -/
def loadAnnList (raw : List Ann) : List Ann := raw.map clampLoad

/-- save_annotations on an in-memory annotation list: every record is written,
clamped and 6-decimal formatted. -/
def saveAnnList (anns : List Ann) : List Ann := anns.map writeAnn

/-- A center-form box (cx, cy, w, h), the argument form of boxes overlap. -/
structure Box where
  cx : Rat
  cy : Rat
  w : Rat
  h : Rat
deriving DecidableEq, Repr

/-- The box of an annotation record. -/
def Ann.box (a : Ann) : Box := ⟨a.cx, a.cy, a.w, a.h⟩

/-- Intersection area of two center-form boxes after corner conversion:
max(0, min(xmax) - max(xmin)) * max(0, min(ymax) - max(ymin)). -/
def interArea (b1 b2 : Box) : Rat :=
  max 0 (min (b1.cx + b1.w / 2) (b2.cx + b2.w / 2)
           - max (b1.cx - b1.w / 2) (b2.cx - b2.w / 2)) *
  max 0 (min (b1.cy + b1.h / 2) (b2.cy + b2.h / 2)
           - max (b1.cy - b1.h / 2) (b2.cy - b2.h / 2))

/-- Union area: area1 + area2 - intersection. -/
def unionArea (b1 b2 : Box) : Rat :=
  b1.w * b1.h + b2.w * b2.h - interArea b1 b2

/-- The IoU value computed inside boxes overlap: 0 when the union area is
nonpositive, otherwise intersection / union. -/
def iou (b1 b2 : Box) : Rat :=
  if unionArea b1 b2 ≤ 0 then 0 else interArea b1 b2 / unionArea b1 b2

/-- boxes overlap: false when the union area is nonpositive, otherwise
IoU > threshold. -/
def boxesOverlap (b1 b2 : Box) (threshold : Rat) : Bool :=
  if unionArea b1 b2 ≤ 0 then false
  else decide (interArea b1 b2 / unionArea b1 b2 > threshold)

lemma interArea_comm (a b : Box) : interArea a b = interArea b a := by
  simp [interArea, min_comm, max_comm]

lemma unionArea_comm (a b : Box) : unionArea a b = unionArea b a := by
  simp [unionArea, interArea_comm, add_comm]

lemma interArea_nonneg (a b : Box) : 0 ≤ interArea a b :=
  mul_nonneg (le_max_left _ _) (le_max_left _ _)

lemma two_interArea_le (a b : Box) (hU : 0 < unionArea a b) :
    2 * interArea a b ≤ a.w * a.h + b.w * b.h := by
  rcases eq_or_lt_of_le (interArea_nonneg a b) with h0 | hpos
  · have : a.w * a.h + b.w * b.h = unionArea a b + interArea a b := by
      simp [unionArea]
    rw [this]
    linarith
  · have hx : 0 < max 0 (min (a.cx + a.w / 2) (b.cx + b.w / 2)
        - max (a.cx - a.w / 2) (b.cx - b.w / 2)) := by
      by_contra hc
      push_neg at hc
      have : interArea a b ≤ 0 := by
        have := mul_nonpos_of_nonpos_of_nonneg hc (le_max_left 0
          (min (a.cy + a.h / 2) (b.cy + b.h / 2)
            - max (a.cy - a.h / 2) (b.cy - b.h / 2)))
        simpa [interArea] using this
      linarith
    have hy : 0 < max 0 (min (a.cy + a.h / 2) (b.cy + b.h / 2)
        - max (a.cy - a.h / 2) (b.cy - b.h / 2)) := by
      by_contra hc
      push_neg at hc
      have : interArea a b ≤ 0 := by
        have := mul_nonpos_of_nonneg_of_nonpos (le_max_left 0
          (min (a.cx + a.w / 2) (b.cx + b.w / 2)
            - max (a.cx - a.w / 2) (b.cx - b.w / 2))) hc
        simpa [interArea] using this
      linarith
    set dx := min (a.cx + a.w / 2) (b.cx + b.w / 2)
      - max (a.cx - a.w / 2) (b.cx - b.w / 2) with hdx
    set dy := min (a.cy + a.h / 2) (b.cy + b.h / 2)
      - max (a.cy - a.h / 2) (b.cy - b.h / 2) with hdy
    have hdxpos : 0 < dx := by
      by_contra hc
      push_neg at hc
      rw [max_eq_left hc] at hx
      exact lt_irrefl 0 hx
    have hdypos : 0 < dy := by
      by_contra hc
      push_neg at hc
      rw [max_eq_left hc] at hy
      exact lt_irrefl 0 hy
    have hIA : interArea a b = dx * dy := by
      rw [interArea, ← hdx, ← hdy, max_eq_right hdxpos.le, max_eq_right hdypos.le]
    have hdxa : dx ≤ a.w := by
      have h1 : min (a.cx + a.w / 2) (b.cx + b.w / 2) ≤ a.cx + a.w / 2 :=
        min_le_left _ _
      have h2 : a.cx - a.w / 2 ≤ max (a.cx - a.w / 2) (b.cx - b.w / 2) :=
        le_max_left _ _
      rw [hdx]
      linarith
    have hdxb : dx ≤ b.w := by
      have h1 : min (a.cx + a.w / 2) (b.cx + b.w / 2) ≤ b.cx + b.w / 2 :=
        min_le_right _ _
      have h2 : b.cx - b.w / 2 ≤ max (a.cx - a.w / 2) (b.cx - b.w / 2) :=
        le_max_right _ _
      rw [hdx]
      linarith
    have hdya : dy ≤ a.h := by
      have h1 : min (a.cy + a.h / 2) (b.cy + b.h / 2) ≤ a.cy + a.h / 2 :=
        min_le_left _ _
      have h2 : a.cy - a.h / 2 ≤ max (a.cy - a.h / 2) (b.cy - b.h / 2) :=
        le_max_left _ _
      rw [hdy]
      linarith
    have hdyb : dy ≤ b.h := by
      have h1 : min (a.cy + a.h / 2) (b.cy + b.h / 2) ≤ b.cy + b.h / 2 :=
        min_le_right _ _
      have h2 : b.cy - b.h / 2 ≤ max (a.cy - a.h / 2) (b.cy - b.h / 2) :=
        le_max_right _ _
      rw [hdy]
      linarith
    have hA : dx * dy ≤ a.w * a.h :=
      mul_le_mul hdxa hdya hdypos.le (le_trans hdxpos.le hdxa)
    have hB : dx * dy ≤ b.w * b.h :=
      mul_le_mul hdxb hdyb hdypos.le (le_trans hdxpos.le hdxb)
    rw [hIA]
    linarith

lemma iou_bounds (a b : Box) : 0 ≤ iou a b ∧ iou a b ≤ 1 := by
  unfold iou
  split
  · exact ⟨le_refl 0, zero_le_one⟩
  · rename_i hU
    push_neg at hU
    constructor
    · exact div_nonneg (interArea_nonneg a b) (le_of_lt hU)
    · rw [div_le_one hU]
      have h2 := two_interArea_le a b hU
      have : a.w * a.h + b.w * b.h = unionArea a b + interArea a b := by
        simp [unionArea]
      linarith [interArea_nonneg a b]

/-- C4: the IoU computed on center-form boxes is symmetric, equals 1 on any
box with positive width and height (every data-model annotation box), always
lies in [0,1], and is 0 whenever the union area is nonpositive. -/
theorem iou_symm_self_bounded :
    (∀ a b : Box, iou a b = iou b a) ∧
    (∀ a : Box, 0 < a.w → 0 < a.h → iou a a = 1) ∧
    (∀ a b : Box, 0 ≤ iou a b ∧ iou a b ≤ 1) ∧
    (∀ a b : Box, unionArea a b ≤ 0 → iou a b = 0) := by
  refine ⟨?_, ?_, iou_bounds, ?_⟩
  · intro a b
    unfold iou
    rw [unionArea_comm, interArea_comm]
  · intro a hw hh
    have hIA : interArea a a = a.w * a.h := by
      rw [interArea, min_self, min_self, max_self, max_self]
      have hx : a.cx + a.w / 2 - (a.cx - a.w / 2) = a.w := by ring
      have hy : a.cy + a.h / 2 - (a.cy - a.h / 2) = a.h := by ring
      rw [hx, hy, max_eq_right hw.le, max_eq_right hh.le]
    have hUA : unionArea a a = a.w * a.h := by
      rw [unionArea, hIA]
      ring
    have hpos : 0 < a.w * a.h := mul_pos hw hh
    rw [iou, hUA, hIA, if_neg (not_le.mpr hpos), div_self (ne_of_gt hpos)]
  · intro a b hU
    rw [iou, if_pos hU]

/-- Witness for C4 at concrete boxes: the unit box has self-IoU 1, and two
disjoint degenerate boxes have nonpositive union area and IoU 0. -/
theorem iou_symm_self_bounded_witness :
    iou ⟨0, 0, 1, 1⟩ ⟨0, 0, 1, 1⟩ = 1 ∧
    unionArea ⟨0, 0, 0, 0⟩ ⟨0, 0, 0, 0⟩ ≤ 0 ∧
    iou ⟨0, 0, 0, 0⟩ ⟨0, 0, 0, 0⟩ = 0 := by
  have h1 : iou ⟨0, 0, 1, 1⟩ ⟨0, 0, 1, 1⟩ = 1 :=
    iou_symm_self_bounded.2.1 ⟨0, 0, 1, 1⟩ (by norm_num) (by norm_num)
  have hU : unionArea ⟨0, 0, 0, 0⟩ ⟨0, 0, 0, 0⟩ ≤ 0 := by
    simp [unionArea, interArea]
  exact ⟨h1, hU, iou_symm_self_bounded.2.2.2 _ _ hU⟩

/-! Rounding to 6 decimal places. -/

lemma round6_mono {p q : Rat} (h : p ≤ q) : round6 p ≤ round6 q := by
  unfold round6
  have hr : round (p * 1000000) ≤ round (q * 1000000) := by
    rw [round_eq, round_eq]
    exact Int.floor_le_floor (by linarith)
  have : ((round (p * 1000000) : Int) : Rat) ≤ ((round (q * 1000000) : Int) : Rat) := by
    exact_mod_cast hr
  linarith

lemma round6_exact (z : Int) : round6 ((z : Rat) / 1000000) = (z : Rat) / 1000000 := by
  unfold round6
  have h : (z : Rat) / 1000000 * 1000000 = (z : Rat) := by
    field_simp
  rw [h, round_intCast]

lemma abs_round6_sub (q : Rat) : |round6 q - q| ≤ 1 / 2000000 := by
  have h := abs_sub_round (q * 1000000)
  unfold round6
  have hrw : (round (q * 1000000) : Rat) / 1000000 - q
      = -((q * 1000000 - (round (q * 1000000) : Rat)) / 1000000) := by
    field_simp
    ring
  rw [hrw, abs_neg, abs_div]
  rw [abs_of_pos (by norm_num : (0 : Rat) < 1000000)]
  rw [div_le_div_iff₀ (by norm_num) (by norm_num)]
  linarith

lemma round6_ge_const {q c : Rat} (z : Int) (hc : c = (z : Rat) / 1000000)
    (h : c ≤ q) : c ≤ round6 q := by
  calc c = round6 c := by rw [hc, round6_exact]
    _ ≤ round6 q := round6_mono h

lemma round6_le_const {q c : Rat} (z : Int) (hc : c = (z : Rat) / 1000000)
    (h : q ≤ c) : round6 q ≤ c := by
  calc round6 q ≤ round6 c := round6_mono h
    _ = c := by rw [hc, round6_exact]

/-! Basic bounds for the save-time clamp. -/

lemma clamp01_nonneg (q : Rat) : 0 ≤ clamp01 q := le_max_left _ _

lemma clamp01_le_one (q : Rat) : clamp01 q ≤ 1 :=
  max_le (by norm_num) (min_le_left _ _)

lemma clampSave_cx (a : Ann) : (clampSave a).cx = clamp01 a.cx := rfl

lemma clampSave_cy (a : Ann) : (clampSave a).cy = clamp01 a.cy := rfl

lemma clampSave_w_ge (a : Ann) : 1 / 1000 ≤ (clampSave a).w := le_max_left _ _

lemma clampSave_h_ge (a : Ann) : 1 / 1000 ≤ (clampSave a).h := le_max_left _ _

lemma clampSave_w_le_left (a : Ann) :
    (clampSave a).w ≤ 2 * (clampSave a).cx + 1 / 1000 := by
  have h0 : 0 ≤ clamp01 a.cx := clamp01_nonneg a.cx
  simp only [clampSave, clamp01] at *
  apply max_le
  · linarith
  · calc min a.w (min (2 * (0 ⊔ (1 ⊓ a.cx))) (2 * (1 - (0 ⊔ (1 ⊓ a.cx)))))
        ≤ 2 * (0 ⊔ (1 ⊓ a.cx)) := le_trans (min_le_right _ _) (min_le_left _ _)
      _ ≤ 2 * (0 ⊔ (1 ⊓ a.cx)) + 1 / 1000 := by linarith

lemma clampSave_w_le_right (a : Ann) :
    (clampSave a).w ≤ 2 * (1 - (clampSave a).cx) + 1 / 1000 := by
  have h1 : clamp01 a.cx ≤ 1 := clamp01_le_one a.cx
  simp only [clampSave, clamp01] at *
  apply max_le
  · linarith
  · calc min a.w (min (2 * (0 ⊔ (1 ⊓ a.cx))) (2 * (1 - (0 ⊔ (1 ⊓ a.cx)))))
        ≤ 2 * (1 - (0 ⊔ (1 ⊓ a.cx))) := le_trans (min_le_right _ _) (min_le_right _ _)
      _ ≤ 2 * (1 - (0 ⊔ (1 ⊓ a.cx))) + 1 / 1000 := by linarith

lemma clampSave_h_le_left (a : Ann) :
    (clampSave a).h ≤ 2 * (clampSave a).cy + 1 / 1000 := by
  have h0 : 0 ≤ clamp01 a.cy := clamp01_nonneg a.cy
  simp only [clampSave, clamp01] at *
  apply max_le
  · linarith
  · calc min a.h (min (2 * (0 ⊔ (1 ⊓ a.cy))) (2 * (1 - (0 ⊔ (1 ⊓ a.cy)))))
        ≤ 2 * (0 ⊔ (1 ⊓ a.cy)) := le_trans (min_le_right _ _) (min_le_left _ _)
      _ ≤ 2 * (0 ⊔ (1 ⊓ a.cy)) + 1 / 1000 := by linarith

lemma clampSave_h_le_right (a : Ann) :
    (clampSave a).h ≤ 2 * (1 - (clampSave a).cy) + 1 / 1000 := by
  have h1 : clamp01 a.cy ≤ 1 := clamp01_le_one a.cy
  simp only [clampSave, clamp01] at *
  apply max_le
  · linarith
  · calc min a.h (min (2 * (0 ⊔ (1 ⊓ a.cy))) (2 * (1 - (0 ⊔ (1 ⊓ a.cy)))))
        ≤ 2 * (1 - (0 ⊔ (1 ⊓ a.cy))) := le_trans (min_le_right _ _) (min_le_right _ _)
      _ ≤ 2 * (1 - (0 ⊔ (1 ⊓ a.cy))) + 1 / 1000 := by linarith

/-- Modelled from the spec: ClampToUnitSquare(cx,cy,w,h) clamps cx,cy into
[0,1] and derives w from max(0.001, min(|w|, 2*cx, 2*(1-cx))), h symmetric.
Stated here for comparison with the clamp save_annotations actually performs. -/
def clampUnitSquareSpec (a : Ann) : Ann :=
  let ncx := clamp01 a.cx
  let ncy := clamp01 a.cy
  let nw := max (1/1000) (min |a.w| (min (2 * ncx) (2 * (1 - ncx))))
  let nh := max (1/1000) (min |a.h| (min (2 * ncy) (2 * (1 - ncy))))
  ⟨a.cid, ncx, ncy, nw, nh⟩

/-- C1 counterexample: save_annotations does not keep every written box inside
the unit square, and it does not clamp per ClampToUnitSquare.  For the
annotation (0, cx=0, cy=0.5, w=0.5, h=0.5) the written record has
cx - w/2 = -0.0005 < 0; and for w = -0.5 at cx = 0.5 the writer stores
w = 0.001 where ClampToUnitSquare (which uses the absolute value) gives 0.5. -/
theorem save_invariant_counterexample :
    (∃ a ∈ saveAnnList [⟨0, 0, 1/2, 1/2, 1/2⟩], a.cx - a.w / 2 < 0) ∧
    (writeAnn ⟨0, 1/2, 1/2, -(1/2), 1/2⟩).w = 1 / 1000 ∧
    (clampUnitSquareSpec ⟨0, 1/2, 1/2, -(1/2), 1/2⟩).w = 1 / 2 := by
  refine ⟨⟨writeAnn ⟨0, 0, 1/2, 1/2, 1/2⟩, by simp [saveAnnList], ?_⟩, ?_, ?_⟩
  · norm_num [writeAnn, clampSave, clamp01, round6, round_eq]
  · norm_num [writeAnn, clampSave, clamp01, round6, round_eq]
  · have habs : |(-(1/2) : Rat)| = 1 / 2 := by
      rw [abs_neg, abs_of_nonneg]
      norm_num
    norm_num [clampUnitSquareSpec, clamp01, habs]

/-- C1 (amended): every annotation handed to save_annotations is written (never
rejected), and every written record has cx, cy in [0,1] and w, h at least
0.001.  The box-inside-the-unit-square bounds of the claim hold only up to
slack: the written values satisfy cx - w/2 >= -0.000501 and
cx + w/2 <= 1.000501 (and symmetrically for cy, h), the slack coming from the
0.001 minimum-size floor when the clamped center is within 0.0005 of an edge
plus at most 7.5e-7 from 6-decimal formatting; whenever the clamped center is
at least 0.0005 away from both edges the pre-formatting box does stay inside
the unit square.  The width is derived without the absolute value of
ClampToUnitSquare. -/
theorem save_invariant_amended :
    (∀ anns : List Ann, (saveAnnList anns).length = anns.length) ∧
    (∀ anns : List Ann, ∀ a ∈ saveAnnList anns,
       0 ≤ a.cx ∧ a.cx ≤ 1 ∧ 0 ≤ a.cy ∧ a.cy ≤ 1 ∧
       1 / 1000 ≤ a.w ∧ 1 / 1000 ≤ a.h ∧
       -(501 / 1000000) ≤ a.cx - a.w / 2 ∧ a.cx + a.w / 2 ≤ 1 + 501 / 1000000 ∧
       -(501 / 1000000) ≤ a.cy - a.h / 2 ∧ a.cy + a.h / 2 ≤ 1 + 501 / 1000000) ∧
    (∀ a : Ann, 1 / 2000 ≤ (clampSave a).cx → (clampSave a).cx ≤ 1 - 1 / 2000 →
       0 ≤ (clampSave a).cx - (clampSave a).w / 2 ∧
       (clampSave a).cx + (clampSave a).w / 2 ≤ 1) ∧
    (∀ a : Ann, 1 / 2000 ≤ (clampSave a).cy → (clampSave a).cy ≤ 1 - 1 / 2000 →
       0 ≤ (clampSave a).cy - (clampSave a).h / 2 ∧
       (clampSave a).cy + (clampSave a).h / 2 ≤ 1) := by
  refine ⟨fun anns => by simp [saveAnnList], ?_, ?_, ?_⟩
  · intro anns a ha
    simp only [saveAnnList, List.mem_map] at ha
    obtain ⟨a0, _, rfl⟩ := ha
    set c := clampSave a0 with hc
    have hcx0 : 0 ≤ c.cx := by rw [hc, clampSave_cx]; exact clamp01_nonneg _
    have hcx1 : c.cx ≤ 1 := by rw [hc, clampSave_cx]; exact clamp01_le_one _
    have hcy0 : 0 ≤ c.cy := by rw [hc, clampSave_cy]; exact clamp01_nonneg _
    have hcy1 : c.cy ≤ 1 := by rw [hc, clampSave_cy]; exact clamp01_le_one _
    have hw0 : 1 / 1000 ≤ c.w := clampSave_w_ge a0
    have hh0 : 1 / 1000 ≤ c.h := clampSave_h_ge a0
    have hwl : c.w ≤ 2 * c.cx + 1 / 1000 := clampSave_w_le_left a0
    have hwr : c.w ≤ 2 * (1 - c.cx) + 1 / 1000 := clampSave_w_le_right a0
    have hhl : c.h ≤ 2 * c.cy + 1 / 1000 := clampSave_h_le_left a0
    have hhr : c.h ≤ 2 * (1 - c.cy) + 1 / 1000 := clampSave_h_le_right a0
    have hrx := abs_round6_sub c.cx
    have hry := abs_round6_sub c.cy
    have hrw := abs_round6_sub c.w
    have hrh := abs_round6_sub c.h
    rw [abs_le] at hrx hry hrw hrh
    have hwx0 : 0 ≤ round6 c.cx := round6_ge_const 0 (by norm_num) hcx0
    have hwx1 : round6 c.cx ≤ 1 := round6_le_const 1000000 (by norm_num) hcx1
    have hwy0 : 0 ≤ round6 c.cy := round6_ge_const 0 (by norm_num) hcy0
    have hwy1 : round6 c.cy ≤ 1 := round6_le_const 1000000 (by norm_num) hcy1
    have hww : 1 / 1000 ≤ round6 c.w := round6_ge_const 1000 (by norm_num) hw0
    have hwh : 1 / 1000 ≤ round6 c.h := round6_ge_const 1000 (by norm_num) hh0
    simp only [writeAnn, ← hc]
    refine ⟨hwx0, hwx1, hwy0, hwy1, hww, hwh, by linarith, by linarith,
      by linarith, by linarith⟩
  · intro a h1 h2
    have hw0 : 1 / 1000 ≤ (clampSave a).w := clampSave_w_ge a
    have hub : (clampSave a).w ≤ 2 * (clampSave a).cx := by
      simp only [clampSave, clamp01] at h1 ⊢
      apply max_le
      · linarith
      · exact le_trans (min_le_right _ _) (min_le_left _ _)
    have hub2 : (clampSave a).w ≤ 2 * (1 - (clampSave a).cx) := by
      simp only [clampSave, clamp01] at h2 ⊢
      apply max_le
      · linarith
      · exact le_trans (min_le_right _ _) (min_le_right _ _)
    constructor <;> linarith
  · intro a h1 h2
    have hw0 : 1 / 1000 ≤ (clampSave a).h := clampSave_h_ge a
    have hub : (clampSave a).h ≤ 2 * (clampSave a).cy := by
      simp only [clampSave, clamp01] at h1 ⊢
      apply max_le
      · linarith
      · exact le_trans (min_le_right _ _) (min_le_left _ _)
    have hub2 : (clampSave a).h ≤ 2 * (1 - (clampSave a).cy) := by
      simp only [clampSave, clamp01] at h2 ⊢
      apply max_le
      · linarith
      · exact le_trans (min_le_right _ _) (min_le_right _ _)
    constructor <;> linarith

/-- Witness for C1 (amended) at a concrete annotation: the record written for
(0, 0.5, 0.5, 0.5, 0.5) satisfies the written-value bounds, and the in-square
part applies at its clamped center 0.5. -/
theorem save_invariant_amended_witness :
    (∀ a ∈ saveAnnList [⟨0, 1/2, 1/2, 1/2, 1/2⟩],
       0 ≤ a.cx ∧ a.cx ≤ 1 ∧ 0 ≤ a.cy ∧ a.cy ≤ 1 ∧
       1 / 1000 ≤ a.w ∧ 1 / 1000 ≤ a.h ∧
       -(501 / 1000000) ≤ a.cx - a.w / 2 ∧ a.cx + a.w / 2 ≤ 1 + 501 / 1000000 ∧
       -(501 / 1000000) ≤ a.cy - a.h / 2 ∧ a.cy + a.h / 2 ≤ 1 + 501 / 1000000) ∧
    (0 ≤ (clampSave ⟨0, 1/2, 1/2, 1/2, 1/2⟩).cx
        - (clampSave ⟨0, 1/2, 1/2, 1/2, 1/2⟩).w / 2 ∧
     (clampSave ⟨0, 1/2, 1/2, 1/2, 1/2⟩).cx
        + (clampSave ⟨0, 1/2, 1/2, 1/2, 1/2⟩).w / 2 ≤ 1) := by
  constructor
  · exact save_invariant_amended.2.1 [⟨0, 1/2, 1/2, 1/2, 1/2⟩]
  · refine save_invariant_amended.2.2.1 ⟨0, 1/2, 1/2, 1/2, 1/2⟩ ?_ ?_ <;>
      norm_num [clampSave, clamp01]

/-! Round trip of a label file through load_image and save_annotations. -/

/-- A rational that is exactly representable with 6 decimal places, i.e. a
value the 6-decimal label-file format stores without loss. -/
def sixDec (q : Rat) : Prop := ∃ z : Int, q = (z : Rat) / 1000000

lemma sixDec.round6_eq {q : Rat} (h : sixDec q) : round6 q = q := by
  obtain ⟨z, rfl⟩ := h
  exact round6_exact z

lemma sixDec.min {p q : Rat} (hp : sixDec p) (hq : sixDec q) :
    sixDec (min p q) := by
  obtain ⟨a, rfl⟩ := hp
  obtain ⟨b, rfl⟩ := hq
  refine ⟨Min.min a b, ?_⟩
  push_cast
  exact min_div_div_right (show (0:Rat) ≤ 1000000 by norm_num) _ _

lemma sixDec.max {p q : Rat} (hp : sixDec p) (hq : sixDec q) :
    sixDec (max p q) := by
  obtain ⟨a, rfl⟩ := hp
  obtain ⟨b, rfl⟩ := hq
  refine ⟨Max.max a b, ?_⟩
  push_cast
  exact max_div_div_right (show (0:Rat) ≤ 1000000 by norm_num) _ _

lemma sixDec.abs {q : Rat} (hq : sixDec q) : sixDec |q| := by
  obtain ⟨a, rfl⟩ := hq
  refine ⟨|a|, ?_⟩
  push_cast
  rw [abs_div, abs_of_pos (by norm_num : (0:Rat) < 1000000)]

lemma sixDec.two_mul {q : Rat} (hq : sixDec q) : sixDec (2 * q) := by
  obtain ⟨a, rfl⟩ := hq
  exact ⟨2 * a, by push_cast; ring⟩

lemma sixDec.one_sub {q : Rat} (hq : sixDec q) : sixDec (1 - q) := by
  obtain ⟨a, rfl⟩ := hq
  exact ⟨1000000 - a, by push_cast; ring⟩

lemma sixDec_const (z : Int) (q : Rat) (h : q = (z : Rat) / 1000000) :
    sixDec q := ⟨z, h⟩

lemma sixDec_clamp01 {q : Rat} (hq : sixDec q) : sixDec (clamp01 q) := by
  unfold clamp01
  exact (sixDec_const 0 0 (by norm_num)).max
    ((sixDec_const 1000000 1 (by norm_num)).min hq)

/-- One lattice identity behind clamp idempotence: re-deriving a dimension
that is already of the form max(floor, min(s, u)) changes nothing. -/
lemma clamp_dim_idem (t s u : Rat) :
    max t (min (max t (min s u)) u) = max t (min s u) := by
  rcases le_total t (min s u) with h | h
  · rw [max_eq_right h, min_assoc, min_self, max_eq_right h]
  · rw [max_eq_left h]
    rcases le_total t u with h2 | h2
    · rw [min_eq_left h2, max_self]
    · rw [min_eq_right h2, max_eq_left h2]

lemma clamp01_of_mem {q : Rat} (h0 : 0 ≤ q) (h1 : q ≤ 1) : clamp01 q = q := by
  rw [clamp01, min_eq_right h1, max_eq_right h0]

lemma clamp01_idem (q : Rat) : clamp01 (clamp01 q) = clamp01 q :=
  clamp01_of_mem (clamp01_nonneg q) (clamp01_le_one q)

lemma clampSave_clampLoad (a : Ann) : clampSave (clampLoad a) = clampLoad a := by
  obtain ⟨cid, cx, cy, w, h⟩ := a
  simp only [clampLoad, clampSave, clamp01_idem, Ann.mk.injEq, true_and,
    and_true, eq_self_iff_true]
  exact ⟨clamp_dim_idem _ _ _, clamp_dim_idem _ _ _⟩

lemma clampLoad_idem (a : Ann) : clampLoad (clampLoad a) = clampLoad a := by
  obtain ⟨cid, cx, cy, w, h⟩ := a
  have habsw : |max (1/1000) (min |w| (min (2 * clamp01 cx)
      (2 * (1 - clamp01 cx))))| = max (1/1000) (min |w| (min (2 * clamp01 cx)
      (2 * (1 - clamp01 cx)))) := by
    apply abs_of_pos
    exact lt_of_lt_of_le (by norm_num) (le_max_left _ _)
  have habsh : |max (1/1000) (min |h| (min (2 * clamp01 cy)
      (2 * (1 - clamp01 cy))))| = max (1/1000) (min |h| (min (2 * clamp01 cy)
      (2 * (1 - clamp01 cy)))) := by
    apply abs_of_pos
    exact lt_of_lt_of_le (by norm_num) (le_max_left _ _)
  simp only [clampLoad, clamp01_idem, habsw, habsh, Ann.mk.injEq, true_and,
    and_true, eq_self_iff_true]
  exact ⟨clamp_dim_idem _ _ _, clamp_dim_idem _ _ _⟩

lemma clampLoad_sixDec {a : Ann} (hcx : sixDec a.cx) (hcy : sixDec a.cy)
    (hw : sixDec a.w) (hh : sixDec a.h) :
    sixDec (clampLoad a).cx ∧ sixDec (clampLoad a).cy ∧
    sixDec (clampLoad a).w ∧ sixDec (clampLoad a).h := by
  obtain ⟨cid, cx, cy, w, h⟩ := a
  have hx := sixDec_clamp01 hcx
  have hy := sixDec_clamp01 hcy
  have hfloor : sixDec ((1:Rat)/1000) := sixDec_const 1000 _ (by norm_num)
  simp only [clampLoad]
  exact ⟨hx, hy,
    hfloor.max (hw.abs.min (hx.two_mul.min hx.one_sub.two_mul)),
    hfloor.max (hh.abs.min (hy.two_mul.min hy.one_sub.two_mul))⟩

lemma writeAnn_clampLoad {a : Ann} (hcx : sixDec a.cx) (hcy : sixDec a.cy)
    (hw : sixDec a.w) (hh : sixDec a.h) :
    writeAnn (clampLoad a) = clampLoad a := by
  obtain ⟨h1, h2, h3, h4⟩ := clampLoad_sixDec hcx hcy hw hh
  rw [writeAnn, clampSave_clampLoad]
  ext
  · rfl
  · exact h1.round6_eq
  · exact h2.round6_eq
  · exact h3.round6_eq
  · exact h4.round6_eq

/-- C5 (amended): Save after Load is idempotent for every label file whose
parsed numeric values are exactly representable with 6 decimal places: for
such a file, loading (with clamping), saving the loaded set, and reloading
the saved file yields the annotation set first loaded. -/
theorem save_load_roundtrip_amended (raw : List Ann)
    (hsix : ∀ a ∈ raw, sixDec a.cx ∧ sixDec a.cy ∧ sixDec a.w ∧ sixDec a.h) :
    loadAnnList (saveAnnList (loadAnnList raw)) = loadAnnList raw := by
  simp only [loadAnnList, saveAnnList, List.map_map]
  apply List.map_congr_left
  intro a ha
  obtain ⟨h1, h2, h3, h4⟩ := hsix a ha
  simp only [Function.comp_apply]
  rw [writeAnn_clampLoad h1 h2 h3 h4, clampLoad_idem]

/-- Witness for C5 (amended) on a concrete one-line label file whose values
are 6-decimal representable. -/
theorem save_load_roundtrip_amended_witness :
    loadAnnList (saveAnnList (loadAnnList [⟨0, 1/2, 1/2, 1/5, 1/5⟩]))
      = loadAnnList [⟨0, 1/2, 1/2, 1/5, 1/5⟩] := by
  apply save_load_roundtrip_amended
  intro a ha
  rw [List.mem_singleton] at ha
  subst ha
  exact ⟨⟨500000, by norm_num⟩, ⟨500000, by norm_num⟩,
    ⟨200000, by norm_num⟩, ⟨200000, by norm_num⟩⟩

/-- C5 counterexample: a label file holding the 7-decimal width 0.1234567 is
loaded unchanged (no clamping applies), but saving formats it to 6 decimals
as 0.123457, so reloading the saved file differs from the first load. -/
lemma clampLoad_of_valid (a : Ann) (hx0 : 0 ≤ a.cx) (hx1 : a.cx ≤ 1)
    (hy0 : 0 ≤ a.cy) (hy1 : a.cy ≤ 1)
    (hw0 : 1/1000 ≤ a.w) (hw1 : a.w ≤ 2 * a.cx) (hw2 : a.w ≤ 2 * (1 - a.cx))
    (hh0 : 1/1000 ≤ a.h) (hh1 : a.h ≤ 2 * a.cy) (hh2 : a.h ≤ 2 * (1 - a.cy)) :
    clampLoad a = a := by
  have hcx := clamp01_of_mem hx0 hx1
  have hcy := clamp01_of_mem hy0 hy1
  have haw : |a.w| = a.w := abs_of_nonneg (le_trans (by norm_num) hw0)
  have hah : |a.h| = a.h := abs_of_nonneg (le_trans (by norm_num) hh0)
  ext
  · rfl
  · exact hcx
  · exact hcy
  · show max (1/1000) (min |a.w| (min (2 * clamp01 a.cx)
      (2 * (1 - clamp01 a.cx)))) = a.w
    rw [hcx, haw, min_eq_left (le_min hw1 hw2), max_eq_right hw0]
  · show max (1/1000) (min |a.h| (min (2 * clamp01 a.cy)
      (2 * (1 - clamp01 a.cy)))) = a.h
    rw [hcy, hah, min_eq_left (le_min hh1 hh2), max_eq_right hh0]

lemma clampSave_of_valid (a : Ann) (hx0 : 0 ≤ a.cx) (hx1 : a.cx ≤ 1)
    (hy0 : 0 ≤ a.cy) (hy1 : a.cy ≤ 1)
    (hw0 : 1/1000 ≤ a.w) (hw1 : a.w ≤ 2 * a.cx) (hw2 : a.w ≤ 2 * (1 - a.cx))
    (hh0 : 1/1000 ≤ a.h) (hh1 : a.h ≤ 2 * a.cy) (hh2 : a.h ≤ 2 * (1 - a.cy)) :
    clampSave a = a := by
  have hcx := clamp01_of_mem hx0 hx1
  have hcy := clamp01_of_mem hy0 hy1
  ext
  · rfl
  · exact hcx
  · exact hcy
  · show max (1/1000) (min a.w (min (2 * clamp01 a.cx)
      (2 * (1 - clamp01 a.cx)))) = a.w
    rw [hcx, min_eq_left (le_min hw1 hw2), max_eq_right hw0]
  · show max (1/1000) (min a.h (min (2 * clamp01 a.cy)
      (2 * (1 - clamp01 a.cy)))) = a.h
    rw [hcy, min_eq_left (le_min hh1 hh2), max_eq_right hh0]

/-- C5 counterexample: a label file holding the 7-decimal width 0.1234567 is
loaded unchanged (no clamping applies), but saving formats it to 6 decimals
as 0.123457, so reloading the saved file differs from the first load. -/
theorem save_load_roundtrip_counterexample :
    loadAnnList (saveAnnList (loadAnnList [⟨0, 1/2, 1/2, 1234567/10000000, 1/5⟩]))
      ≠ loadAnnList [⟨0, 1/2, 1/2, 1234567/10000000, 1/5⟩] := by
  have hr1 : round6 ((1:Rat)/2) = 1/2 :=
    sixDec.round6_eq ⟨500000, by norm_num⟩
  have hr3 : round6 ((1:Rat)/5) = 1/5 :=
    sixDec.round6_eq ⟨200000, by norm_num⟩
  have hfl : ⌊(1234567:Rat)/10000000 * 1000000 + 1/2⌋ = (123457 : Int) := by
    rw [Int.floor_eq_iff]
    constructor
    · push_cast
      norm_num
    · push_cast
      norm_num
  have hr2 : round6 ((1234567:Rat)/10000000) = 123457/1000000 := by
    unfold round6
    rw [round_eq, hfl]
    norm_num
  have h1 : clampLoad ⟨0, 1/2, 1/2, 1234567/10000000, 1/5⟩
      = (⟨0, 1/2, 1/2, 1234567/10000000, 1/5⟩ : Ann) :=
    clampLoad_of_valid _ (by norm_num) (by norm_num) (by norm_num) (by norm_num)
      (by norm_num) (by norm_num) (by norm_num) (by norm_num) (by norm_num)
      (by norm_num)
  have h2 : writeAnn ⟨0, 1/2, 1/2, 1234567/10000000, 1/5⟩
      = (⟨0, 1/2, 1/2, 123457/1000000, 1/5⟩ : Ann) := by
    rw [writeAnn, clampSave_of_valid _ (by norm_num) (by norm_num) (by norm_num)
      (by norm_num) (by norm_num) (by norm_num) (by norm_num) (by norm_num)
      (by norm_num) (by norm_num)]
    ext
    · rfl
    · exact hr1
    · exact hr1
    · exact hr2
    · exact hr3
  have h3 : clampLoad ⟨0, 1/2, 1/2, 123457/1000000, 1/5⟩
      = (⟨0, 1/2, 1/2, 123457/1000000, 1/5⟩ : Ann) :=
    clampLoad_of_valid _ (by norm_num) (by norm_num) (by norm_num) (by norm_num)
      (by norm_num) (by norm_num) (by norm_num) (by norm_num) (by norm_num)
      (by norm_num)
  intro hcontra
  simp only [loadAnnList, saveAnnList, List.map_cons, List.map_nil, h1, h2, h3,
    List.cons.injEq, and_true] at hcontra
  have hw := congrArg Ann.w hcontra
  norm_num at hw

/-! The batch auto-annotation worker (gui.py, auto_annotate_all). -/

/-- The three merge policies of the batch job. -/
inductive MergeMode
  | addMissing
  | unannotatedOnly
  | overwrite
deriving DecidableEq, Repr

/-- One detection returned by the inference provider, after int(c) conversion:
class id, normalized center-form box, confidence score. -/
structure Det where
  cid : Int
  x : Rat
  y : Rat
  w : Rat
  h : Rat
  score : Rat
deriving DecidableEq, Repr

/-- The annotation record [class_id, b0, b1, b2, b3] built from a detection. -/
def Det.ann (d : Det) : Ann := ⟨d.cid, d.x, d.y, d.w, d.h⟩

/-- 6-decimal formatting (and re-parsing) of a whole record, the content of
one written label line. -/
def round6Ann (a : Ann) : Ann :=
  ⟨a.cid, round6 a.cx, round6 a.cy, round6 a.w, round6 a.h⟩

/-- The duplicate-or-overlap test of _is_duplicate_or_overlapping: an existing
annotation of a different class never matches; one of the same class matches
when all four coordinates differ by less than the tolerance, or when the boxes
overlap above the IoU threshold. -/
def isDupOrOverlap (newAnn : Ann) (existing : List Ann) (iouT tol : Rat) :
    Bool :=
  existing.any fun a =>
    if a.cid ≠ newAnn.cid then false
    else if |a.cx - newAnn.cx| < tol ∧ |a.cy - newAnn.cy| < tol ∧
            |a.w - newAnn.w| < tol ∧ |a.h - newAnn.h| < tol then true
    else boxesOverlap newAnn.box a.box iouT

/-- Shared progress counters of the batch job. -/
structure BatchStats where
  cnt : Nat
  skippedImages : Nat
  skippedDupes : Nat
deriving DecidableEq, Repr

/-- One step of the worker's per-detection loop: drop detections whose class
is not allowed or whose score is below the per-class threshold; in AddMissing
mode also drop (counting a duplicate) detections that duplicate or overlap an
existing annotation or one accepted earlier in this image's pass; otherwise
append the 6-decimal-formatted record to the write buffer. -/
def detStep (mode : MergeMode) (allowed : List Int) (thr : Int → Rat)
    (iouT : Rat) (existing : List Ann) (st : List Ann × Nat) (d : Det) :
    List Ann × Nat :=
  if d.cid ∉ allowed then st
  else if d.score < thr d.cid then st
  else if mode = .addMissing ∧ isDupOrOverlap d.ann existing iouT (1/50) then
    (st.1, st.2 + 1)
  else if mode = .addMissing ∧ isDupOrOverlap d.ann st.1 iouT (1/50) then
    (st.1, st.2 + 1)
  else (st.1 ++ [round6Ann d.ann], st.2)

/-- The worker's detection loop over one image: returns the write buffer
(new_lines) and the number of detections counted in skipped_dupes. -/
def acceptDetections (mode : MergeMode) (allowed : List Int) (thr : Int → Rat)
    (iouT : Rat) (existing : List Ann) (dets : List Det) : List Ann × Nat :=
  dets.foldl (detStep mode allowed thr iouT existing) ([], 0)

/-- A label-file store: maps a path to the parsed content of the file there,
or none when no file exists (an empty file is some []). -/
def LabelFS : Type := String → Option (List Ann)

/-- Writing a label file. -/
def fsWrite (fs : LabelFS) (p : String) (content : List Ann) : LabelFS :=
  fun q => if q = p then some content else fs q

/-- The worker's body for one image: load existing annotations, honor the
UnannotatedOnly skip, run the detection loop, then write per merge mode
(Overwrite: preserved non-allowed lines plus the buffer, with the
empty-result/missing-file distinction of the source; other modes: append the
buffer when non-empty, else count the image as skipped). -/
def processImage (mode : MergeMode) (allowed : List Int) (thr : Int → Rat)
    (iouT : Rat) (predict : String → List Det) (labelPath : String → String)
    (fs : LabelFS) (p : String) (st : BatchStats) : LabelFS × BatchStats :=
  let lbl := labelPath p
  let existing := (fs lbl).getD []
  if mode = .unannotatedOnly ∧ existing ≠ [] then
    (fs, { st with skippedImages := st.skippedImages + 1 })
  else
    let res := acceptDetections mode allowed thr iouT existing (predict p)
    let newAnns := res.1
    let st1 := { st with skippedDupes := st.skippedDupes + res.2 }
    if mode = .overwrite then
      let preserved := existing.filter fun a => a.cid ∉ allowed
      let allLines := preserved ++ newAnns
      if allLines ≠ [] then
        (fsWrite fs lbl allLines, { st1 with cnt := st1.cnt + newAnns.length })
      else if (fs lbl).isSome ∧ preserved = [] then
        (fsWrite fs lbl [], st1)
      else
        (fs, { st1 with skippedImages := st1.skippedImages + 1 })
    else if newAnns ≠ [] then
      (fsWrite fs lbl (existing ++ newAnns),
        { st1 with cnt := st1.cnt + newAnns.length })
    else
      (fs, { st1 with skippedImages := st1.skippedImages + 1 })

/-- The worker's image loop without cancellation: process the images in list
order, threading the file store and the counters. -/
def runImages (mode : MergeMode) (allowed : List Int) (thr : Int → Rat)
    (iouT : Rat) (predict : String → List Det) (labelPath : String → String) :
    List String → LabelFS → BatchStats → LabelFS × BatchStats
  | [], fs, st => (fs, st)
  | p :: ps, fs, st =>
    let r := processImage mode allowed thr iouT predict labelPath fs p st
    runImages mode allowed thr iouT predict labelPath ps r.1 r.2

/-- The worker's image loop with the cancel flag checked once at the top of
each iteration (cancel i is the flag's value as observed at iteration i);
when the flag is set the loop breaks without touching further images. -/
def workerLoop (cancel : Nat → Bool) (mode : MergeMode) (allowed : List Int)
    (thr : Int → Rat) (iouT : Rat) (predict : String → List Det)
    (labelPath : String → String) :
    Nat → List String → LabelFS → BatchStats → LabelFS × BatchStats
  | _, [], fs, st => (fs, st)
  | i, p :: ps, fs, st =>
    if cancel i then (fs, st)
    else
      let r := processImage mode allowed thr iouT predict labelPath fs p st
      workerLoop cancel mode allowed thr iouT predict labelPath (i + 1) ps
        r.1 r.2

/-- The number of leading images the loop starts before observing the cancel
flag, counting iterations from index i. -/
def cancelFreeCount (cancel : Nat → Bool) : Nat → List String → Nat
  | _, [] => 0
  | i, _ :: ps => if cancel i then 0 else cancelFreeCount cancel (i + 1) ps + 1

lemma fsWrite_ne (fs : LabelFS) (p q : String) (c : List Ann) (h : q ≠ p) :
    fsWrite fs p c q = fs q := by
  simp [fsWrite, h]

lemma processImage_frame (mode : MergeMode) (allowed : List Int)
    (thr : Int → Rat) (iouT : Rat) (predict : String → List Det)
    (labelPath : String → String) (fs : LabelFS) (p : String)
    (st : BatchStats) (q : String) (h : q ≠ labelPath p) :
    (processImage mode allowed thr iouT predict labelPath fs p st).1 q
      = fs q := by
  unfold processImage
  dsimp only
  repeat' split
  all_goals first
    | rfl
    | exact fsWrite_ne _ _ _ _ h

lemma workerLoop_eq_runImages (cancel : Nat → Bool) (mode : MergeMode)
    (allowed : List Int) (thr : Int → Rat) (iouT : Rat)
    (predict : String → List Det) (labelPath : String → String) :
    ∀ (ps : List String) (i : Nat) (fs : LabelFS) (st : BatchStats),
      workerLoop cancel mode allowed thr iouT predict labelPath i ps fs st
        = runImages mode allowed thr iouT predict labelPath
            (ps.take (cancelFreeCount cancel i ps)) fs st := by
  intro ps
  induction ps with
  | nil => intro i fs st; rfl
  | cons p ps ih =>
    intro i fs st
    rw [workerLoop, cancelFreeCount]
    by_cases hc : cancel i
    · simp only [hc, if_true, List.take_zero]
      rfl
    · simp only [hc, if_false, Bool.false_eq_true, List.take_succ_cons]
      rw [runImages, ih]

/-- C9: the batch worker with a cooperative cancel flag behaves exactly like
the uncancelled worker run on the leading images it starts before first
observing the flag (so images are processed strictly in input-list order, the
flag is consulted once at the top of each iteration, no image after the first
observed-set check is started, and everything written by earlier iterations is
left exactly as written — no rollback); moreover processing one image touches
no label file other than that image's own label path. -/
theorem worker_cancel_in_order_no_rollback :
    (∀ (cancel : Nat → Bool) (mode : MergeMode) (allowed : List Int)
       (thr : Int → Rat) (iouT : Rat) (predict : String → List Det)
       (labelPath : String → String) (ps : List String) (i : Nat)
       (fs : LabelFS) (st : BatchStats),
       workerLoop cancel mode allowed thr iouT predict labelPath i ps fs st
         = runImages mode allowed thr iouT predict labelPath
             (ps.take (cancelFreeCount cancel i ps)) fs st) ∧
    (∀ (mode : MergeMode) (allowed : List Int) (thr : Int → Rat) (iouT : Rat)
       (predict : String → List Det) (labelPath : String → String)
       (fs : LabelFS) (p : String) (st : BatchStats) (q : String),
       q ≠ labelPath p →
       (processImage mode allowed thr iouT predict labelPath fs p st).1 q
         = fs q) :=
  ⟨fun cancel mode allowed thr iouT predict labelPath ps i fs st =>
      workerLoop_eq_runImages cancel mode allowed thr iouT predict labelPath
        ps i fs st,
    fun mode allowed thr iouT predict labelPath fs p st q h =>
      processImage_frame mode allowed thr iouT predict labelPath fs p st q h⟩

/-- Witness for C9 at concrete inputs: a run over two images with the flag
set from iteration 1 on equals the uncancelled run over the first image only,
and processing image b leaves the label file of a different path untouched. -/
theorem worker_cancel_in_order_no_rollback_witness :
    (workerLoop (fun i => decide (1 ≤ i)) .addMissing [] (fun _ => 0) 0
        (fun _ => []) (fun p => p ++ ".txt") 0 ["a", "b"] (fun _ => none)
        ⟨0, 0, 0⟩
      = runImages .addMissing [] (fun _ => 0) 0 (fun _ => [])
          (fun p => p ++ ".txt")
          (["a", "b"].take (cancelFreeCount (fun i => decide (1 ≤ i)) 0
            ["a", "b"])) (fun _ => none) ⟨0, 0, 0⟩) ∧
    ((processImage .addMissing [] (fun _ => 0) 0 (fun _ => [])
        (fun p => p ++ ".txt") (fun _ => none) "b" ⟨0, 0, 0⟩).1 "a.txt"
      = (fun _ => (none : Option (List Ann))) "a.txt") := by
  constructor
  · exact worker_cancel_in_order_no_rollback.1 (fun i => decide (1 ≤ i))
      .addMissing [] (fun _ => 0) 0 (fun _ => []) (fun p => p ++ ".txt")
      ["a", "b"] 0 (fun _ => none) ⟨0, 0, 0⟩
  · exact worker_cancel_in_order_no_rollback.2 .addMissing [] (fun _ => 0) 0
      (fun _ => []) (fun p => p ++ ".txt") (fun _ => none) "b" ⟨0, 0, 0⟩
      "a.txt" (by decide)

/-- The merged line set the Overwrite claim describes: the lines of the
existing label file whose class id is not in allowed_classes, followed by all
accepted new detections. -/
def overwriteMergeSpec (allowed : List Int) (existing newAnns : List Ann) :
    List Ann :=
  (existing.filter fun a => a.cid ∉ allowed) ++ newAnns

/-- C2 counterexample: in Overwrite mode, an image with no label file and no
accepted detections ends with a still-missing label file (not an empty one)
and is counted in skipped_images — the claim's empty-result clause fails for
missing files. -/
theorem overwrite_merge_counterexample :
    (processImage .overwrite [0] (fun _ => 0) 0 (fun _ => [])
        (fun p => p ++ ".txt") (fun _ => none) "img" ⟨0, 0, 0⟩).1
        ("img" ++ ".txt") = none ∧
    (processImage .overwrite [0] (fun _ => 0) 0 (fun _ => [])
        (fun p => p ++ ".txt") (fun _ => none) "img" ⟨0, 0, 0⟩).2.skippedImages
      = 1 := by
  constructor <;> rfl

/-- C2 (amended): in Overwrite mode the worker keeps exactly the existing
lines whose class id is not in allowed_classes and appends all accepted new
detections; when the merged set is non-empty it is written as the new file
content; when the merged set is empty and a label file exists, the file is
truncated to an empty file; but when the merged set is empty and no label
file exists, nothing is written (the file stays missing) and skipped_images
is incremented. -/
theorem overwrite_merge_amended (allowed : List Int) (thr : Int → Rat)
    (iouT : Rat) (predict : String → List Det) (labelPath : String → String)
    (fs : LabelFS) (p : String) (st : BatchStats)
    (existing newAnns merged : List Ann)
    (hex : existing = (fs (labelPath p)).getD [])
    (hnew : newAnns = (acceptDetections .overwrite allowed thr iouT existing
      (predict p)).1)
    (hm : merged = overwriteMergeSpec allowed existing newAnns) :
    (merged ≠ [] →
      (processImage .overwrite allowed thr iouT predict labelPath fs p st).1
          (labelPath p) = some merged) ∧
    (merged = [] → (fs (labelPath p)).isSome →
      (processImage .overwrite allowed thr iouT predict labelPath fs p st).1
          (labelPath p) = some []) ∧
    (merged = [] → fs (labelPath p) = none →
      (processImage .overwrite allowed thr iouT predict labelPath fs p st).1
          (labelPath p) = none ∧
      ((processImage .overwrite allowed thr iouT predict labelPath fs p
          st).2).skippedImages = st.skippedImages + 1) := by
  subst hex
  subst hnew
  subst hm
  unfold processImage
  dsimp only
  rw [if_neg (by simp : ¬(MergeMode.overwrite = MergeMode.unannotatedOnly ∧
    (fs (labelPath p)).getD [] ≠ []))]
  rw [if_pos rfl]
  have hOM : (List.filter (fun a => decide (a.cid ∉ allowed))
        ((fs (labelPath p)).getD []))
      ++ (acceptDetections MergeMode.overwrite allowed thr iouT
        ((fs (labelPath p)).getD []) (predict p)).1
      = overwriteMergeSpec allowed ((fs (labelPath p)).getD [])
          (acceptDetections MergeMode.overwrite allowed thr iouT
            ((fs (labelPath p)).getD []) (predict p)).1 := rfl
  rw [hOM]
  refine ⟨?_, ?_, ?_⟩
  · intro hne
    rw [if_pos hne]
    simp [fsWrite]
  · intro hz hsome
    rw [if_neg (by simp [hz])]
    have hp : List.filter (fun a => decide (a.cid ∉ allowed))
        ((fs (labelPath p)).getD []) = [] := by
      have h2 := hz
      simp only [overwriteMergeSpec] at h2
      exact (List.append_eq_nil.mp h2).1
    rw [if_pos ⟨hsome, hp⟩]
    simp [fsWrite]
  · intro hz hnone
    rw [if_neg (by simp [hz]), if_neg (by rw [hnone]; simp)]
    exact ⟨hnone, rfl⟩

/-- Witness for C2 (amended), matching the spec's test vector: a label file
with one class-0 line and one class-1 line, allowed_classes = {0}, and zero
detections ends as a file containing only the class-1 line. -/
theorem overwrite_merge_amended_witness :
    (processImage .overwrite [0] (fun _ => 0) 0 (fun _ => [])
        (fun p => p ++ ".txt")
        (fun q => if q = "img" ++ ".txt"
          then some [⟨0, 1/2, 1/2, 1/5, 1/5⟩, ⟨1, 1/2, 1/2, 1/5, 1/5⟩]
          else none)
        "img" ⟨0, 0, 0⟩).1 ("img" ++ ".txt")
      = some [⟨1, 1/2, 1/2, 1/5, 1/5⟩] := by
  have h := (overwrite_merge_amended [0] (fun _ => 0) 0 (fun _ => [])
    (fun p => p ++ ".txt")
    (fun q => if q = "img" ++ ".txt"
      then some [⟨0, 1/2, 1/2, 1/5, 1/5⟩, ⟨1, 1/2, 1/2, 1/5, 1/5⟩]
      else none)
    "img" ⟨0, 0, 0⟩
    [⟨0, 1/2, 1/2, 1/5, 1/5⟩, ⟨1, 1/2, 1/2, 1/5, 1/5⟩]
    [] [⟨1, 1/2, 1/2, 1/5, 1/5⟩] (by simp) rfl
    (by simp [overwriteMergeSpec, List.filter])).1
  exact h (by simp)

/-- C10: in the non-Overwrite modes, an image that ends with an empty
accepted-detection buffer — whether skipped before inference
(UnannotatedOnly on an annotated image) or fully processed with every
detection filtered out — causes no write at all (the whole label store is
unchanged) and increments skipped_images; and skipped_images is incremented
exactly in those two situations. -/
theorem no_write_when_nothing_accepted (mode : MergeMode) (allowed : List Int)
    (thr : Int → Rat) (iouT : Rat) (predict : String → List Det)
    (labelPath : String → String) (fs : LabelFS) (p : String) (st : BatchStats)
    (hmode : mode ≠ .overwrite) (existing : List Ann) (newAnns : List Ann)
    (hex : existing = (fs (labelPath p)).getD [])
    (hnew : newAnns = (acceptDetections mode allowed thr iouT existing
      (predict p)).1) :
    (((mode = .unannotatedOnly ∧ existing ≠ []) ∨ newAnns = []) →
      (processImage mode allowed thr iouT predict labelPath fs p st).1 = fs) ∧
    (((processImage mode allowed thr iouT predict labelPath fs p
        st).2).skippedImages
      = st.skippedImages +
        (if (mode = .unannotatedOnly ∧ existing ≠ []) ∨ newAnns = []
         then 1 else 0)) := by
  subst hex
  subst hnew
  unfold processImage
  dsimp only
  by_cases hskip : mode = .unannotatedOnly ∧ (fs (labelPath p)).getD [] ≠ []
  · rw [if_pos hskip]
    refine ⟨fun _ => rfl, ?_⟩
    rw [if_pos (Or.inl hskip)]
  · rw [if_neg hskip, if_neg hmode]
    by_cases hN : (acceptDetections mode allowed thr iouT
        ((fs (labelPath p)).getD []) (predict p)).1 ≠ []
    · rw [if_pos hN]
      refine ⟨fun hc => ?_, ?_⟩
      · rcases hc with hc | hc
        · exact absurd hc hskip
        · exact absurd hc hN
      · rw [if_neg (by tauto)]
        rfl
    · rw [if_neg hN]
      push_neg at hN
      refine ⟨fun _ => rfl, ?_⟩
      rw [if_pos (Or.inr hN)]

/-- Witness for C10 at a concrete input: AddMissing mode with a predictor
returning no detections leaves the (empty) label store untouched and counts
the image in skipped_images. -/
theorem no_write_when_nothing_accepted_witness :
    ((processImage .addMissing [] (fun _ => 0) 0 (fun _ => [])
        (fun p => p ++ ".txt") (fun _ => none) "img" ⟨0, 0, 0⟩).1
      = (fun _ => (none : Option (List Ann)))) ∧
    (((processImage .addMissing [] (fun _ => 0) 0 (fun _ => [])
        (fun p => p ++ ".txt") (fun _ => none) "img" ⟨0, 0, 0⟩).2).skippedImages
      = 0 + (if ((MergeMode.addMissing = .unannotatedOnly ∧
            (((fun _ => (none : Option (List Ann)))
              ("img" ++ ".txt")).getD []) ≠ []) ∨
          (acceptDetections .addMissing [] (fun _ => 0) 0
            ((((fun _ => (none : Option (List Ann))))
              ("img" ++ ".txt")).getD []) []).1 = [])
         then 1 else 0)) := by
  have h := no_write_when_nothing_accepted .addMissing [] (fun _ => 0) 0
    (fun _ => []) (fun p => p ++ ".txt") (fun _ => none) "img" ⟨0, 0, 0⟩
    (by simp) [] [] rfl rfl
  exact ⟨h.1 (Or.inr rfl), h.2⟩

/-- The AddMissing acceptance rule as the claim words it: walk the detections
in order; a detection that passes the class and confidence filters is dropped
(counting a duplicate) exactly when the duplicate-or-overlap predicate holds
against the existing annotations or against the detections already accepted
earlier in this pass; otherwise its formatted record joins the accepted list. -/
def addMissingSpec (allowed : List Int) (thr : Int → Rat) (iouT : Rat)
    (existing : List Ann) : List Det → List Ann → Nat → List Ann × Nat
  | [], acc, skips => (acc, skips)
  | d :: ds, acc, skips =>
    if d.cid ∈ allowed ∧ ¬ d.score < thr d.cid then
      if isDupOrOverlap d.ann existing iouT (1/50)
          ∨ isDupOrOverlap d.ann acc iouT (1/50) then
        addMissingSpec allowed thr iouT existing ds acc (skips + 1)
      else
        addMissingSpec allowed thr iouT existing ds (acc ++ [round6Ann d.ann])
          skips
    else
      addMissingSpec allowed thr iouT existing ds acc skips

lemma isDupOrOverlap_ne_class (d : Ann) (l : List Ann) (iouT tol : Rat)
    (h : ∀ a ∈ l, a.cid ≠ d.cid) : isDupOrOverlap d l iouT tol = false := by
  rw [isDupOrOverlap, List.any_eq_false]
  intro a ha
  simp only [if_pos (h a ha)]
  exact fun hc => Bool.false_ne_true hc

lemma accept_eq_addMissingSpec (allowed : List Int) (thr : Int → Rat)
    (iouT : Rat) (existing : List Ann) :
    ∀ (dets : List Det) (acc : List Ann) (skips : Nat),
      dets.foldl (detStep .addMissing allowed thr iouT existing) (acc, skips)
        = addMissingSpec allowed thr iouT existing dets acc skips := by
  intro dets
  induction dets with
  | nil => intro acc skips; rfl
  | cons d ds ih =>
    intro acc skips
    rw [List.foldl_cons, addMissingSpec]
    rcases Decidable.em (d.cid ∈ allowed) with h1 | h1
    · rcases Decidable.em (d.score < thr d.cid) with h2 | h2
      · rw [detStep, if_neg (not_not_intro h1), if_pos h2,
          if_neg (fun hc => hc.2 h2)]
        exact ih _ _
      · rw [if_pos ⟨h1, h2⟩]
        by_cases hd1 : isDupOrOverlap d.ann existing iouT (1/50) = true
        · rw [detStep, if_neg (not_not_intro h1), if_neg h2,
            if_pos ⟨rfl, hd1⟩, if_pos (Or.inl hd1)]
          exact ih _ _
        · by_cases hd2 : isDupOrOverlap d.ann acc iouT (1/50) = true
          · rw [detStep, if_neg (not_not_intro h1), if_neg h2,
              if_neg (fun hc => hd1 hc.2), if_pos ⟨rfl, hd2⟩,
              if_pos (Or.inr hd2)]
            exact ih _ _
          · rw [detStep, if_neg (not_not_intro h1), if_neg h2,
              if_neg (fun hc => hd1 hc.2), if_neg (fun hc => hd2 hc.2),
              if_neg (fun hc => hc.elim hd1 hd2)]
            exact ih _ _
    · rw [detStep, if_pos h1, if_neg (fun hc => h1 hc.1)]
      exact ih _ _

/-- C6: the worker's AddMissing detection loop implements exactly the claim's
rule — a filter-passing detection is dropped if and only if the
duplicate-or-overlap predicate (which compares only annotations of the same
class, by near-equal coordinates or IoU above threshold) holds against the
existing annotations or against the detections accepted earlier in the same
image's pass; in particular a detection whose class differs from every
existing and every already-accepted annotation (for example one at identical
coordinates but of a different class) is never dropped. -/
theorem add_missing_dedup_rule :
    (∀ (allowed : List Int) (thr : Int → Rat) (iouT : Rat)
       (existing : List Ann) (dets : List Det),
       acceptDetections .addMissing allowed thr iouT existing dets
         = addMissingSpec allowed thr iouT existing dets [] 0) ∧
    (∀ (d : Ann) (l : List Ann) (iouT tol : Rat),
       (∀ a ∈ l, a.cid ≠ d.cid) → isDupOrOverlap d l iouT tol = false) ∧
    (∀ (allowed : List Int) (thr : Int → Rat) (iouT : Rat)
       (existing acc : List Ann) (skips : Nat) (d : Det),
       d.cid ∈ allowed → ¬ d.score < thr d.cid →
       (∀ a ∈ existing, a.cid ≠ d.cid) → (∀ a ∈ acc, a.cid ≠ d.cid) →
       detStep .addMissing allowed thr iouT existing (acc, skips) d
         = (acc ++ [round6Ann d.ann], skips)) := by
  refine ⟨?_, isDupOrOverlap_ne_class, ?_⟩
  · intro allowed thr iouT existing dets
    exact accept_eq_addMissingSpec allowed thr iouT existing dets [] 0
  · intro allowed thr iouT existing acc skips d h1 h2 hex hacc
    have hd1 := isDupOrOverlap_ne_class d.ann existing iouT (1/50)
      (by intro a ha; exact hex a ha)
    have hd2 := isDupOrOverlap_ne_class d.ann acc iouT (1/50)
      (by intro a ha; exact hacc a ha)
    rw [detStep, if_neg (not_not_intro h1), if_neg h2,
      if_neg (fun hc => Bool.false_ne_true (hd1 ▸ hc.2)),
      if_neg (fun hc => Bool.false_ne_true (hd2 ▸ hc.2))]

/-- Witness for C6 at a concrete input: a class-1 detection at coordinates
identical to an existing class-0 annotation passes the step and is appended,
not dropped. -/
theorem add_missing_dedup_rule_witness :
    detStep .addMissing [1] (fun _ => 0) (3/10)
        [⟨0, 1/2, 1/2, 1/5, 1/5⟩] ([], 0) ⟨1, 1/2, 1/2, 1/5, 1/5, 1⟩
      = ([round6Ann (Det.ann ⟨1, 1/2, 1/2, 1/5, 1/5, 1⟩)], 0) := by
  have h := add_missing_dedup_rule.2.2 [1] (fun _ => 0) (3/10)
    [⟨0, 1/2, 1/2, 1/5, 1/5⟩] [] 0 ⟨1, 1/2, 1/2, 1/5, 1/5, 1⟩
    (by simp) (by norm_num)
    (by intro a ha; rw [List.mem_singleton] at ha; subst ha; decide)
    (by intro a ha; exact absurd ha (List.not_mem_nil a))
  simpa using h

/-! The custom query evaluator (gui.py, show_query_dialog). -/

/-- A condition's comparison operator. -/
inductive QOp
  | qeq | qne | qlt | qgt | qle | qge
deriving DecidableEq, Repr

/-- The AND/OR connective attached to a condition, saying how it combines
with the running result so far. -/
inductive QLogic
  | qand | qor
deriving DecidableEq, Repr

/-- One query condition: class, operator, target count, connective. -/
structure QCond where
  cls : Int
  op : QOp
  target : Int
  logic : QLogic
deriving DecidableEq, Repr

/-- get_class_counts for one class: the number of annotations of that class
on the image. -/
def classCount (anns : List Ann) (c : Int) : Nat :=
  (anns.filter fun a => a.cid = c).length

/-- evaluate_condition: compare the image's count for the condition's class
against the target with the condition's operator. -/
def evalCondition (counts : Int → Nat) (c : QCond) : Bool :=
  match c.op with
  | .qeq => decide ((counts c.cls : Int) = c.target)
  | .qne => decide ((counts c.cls : Int) ≠ c.target)
  | .qlt => decide ((counts c.cls : Int) < c.target)
  | .qgt => decide ((counts c.cls : Int) > c.target)
  | .qle => decide ((counts c.cls : Int) ≤ c.target)
  | .qge => decide ((counts c.cls : Int) ≥ c.target)

/-- The evaluation loop as written in find_matches: the running result starts
as None, the first condition seeds it, each later condition is combined with
the running result by its own AND/OR; a final None (no conditions) is falsy. -/
def evalQueryCode (conds : List QCond) (counts : Int → Nat) : Bool :=
  (conds.foldl (fun r c =>
      let cr := evalCondition counts c
      match r with
      | none => some cr
      | some b =>
        match c.logic with
        | .qand => some (b && cr)
        | .qor => some (b || cr)) none).getD false

/-- The claim's description of evaluation: a left-to-right fold with no
precedence, seeded with the first condition's truth value; a query with zero
conditions is false. -/
def evalQuerySpec (counts : Int → Nat) : List QCond → Bool
  | [] => false
  | c :: cs =>
    cs.foldl (fun r c2 =>
      match c2.logic with
      | .qand => r && evalCondition counts c2
      | .qor => r || evalCondition counts c2) (evalCondition counts c)

/-- find_matches: an empty condition list matches nothing; otherwise keep the
images whose label-file class counts satisfy the query. -/
def findMatches (conds : List QCond) (images : List String)
    (labelPath : String → String) (fs : LabelFS) : List String :=
  if conds = [] then []
  else images.filter fun p =>
    evalQueryCode conds (classCount ((fs (labelPath p)).getD []))

lemma foldl_some_eq (counts : Int → Nat) :
    ∀ (cs : List QCond) (b : Bool),
      cs.foldl (fun r c =>
          let cr := evalCondition counts c
          match r with
          | none => some cr
          | some b2 =>
            match c.logic with
            | .qand => some (b2 && cr)
            | .qor => some (b2 || cr)) (some b)
        = some (cs.foldl (fun r c2 =>
            match c2.logic with
            | .qand => r && evalCondition counts c2
            | .qor => r || evalCondition counts c2) b) := by
  intro cs
  induction cs with
  | nil => intro b; rfl
  | cons c cs ih =>
    intro b
    rw [List.foldl_cons, List.foldl_cons]
    cases hl : c.logic
    · simp only [hl]
      exact ih _
    · simp only [hl]
      exact ih _

lemma evalQueryCode_eq_spec (conds : List QCond) (counts : Int → Nat) :
    evalQueryCode conds counts = evalQuerySpec counts conds := by
  cases conds with
  | nil => rfl
  | cons c cs =>
    rw [evalQueryCode, evalQuerySpec, List.foldl_cons, foldl_some_eq]
    rfl

/-- C7: custom-query evaluation is the left-to-right no-precedence fold the
claim describes — the running result starts as the first condition's value
and each later condition is combined by its own AND/OR connective (the code's
None-seeded loop equals that fold); each condition is evaluated against the
count of annotations of its class on the image; a query with zero conditions
matches no image; and an image is matched exactly when it is in the image
list, the query is non-empty, and the fold evaluates to true on its counts. -/
theorem custom_query_fold :
    (∀ (conds : List QCond) (counts : Int → Nat),
       evalQueryCode conds counts = evalQuerySpec counts conds) ∧
    (∀ (images : List String) (labelPath : String → String) (fs : LabelFS),
       findMatches [] images labelPath fs = []) ∧
    (∀ (conds : List QCond) (images : List String)
       (labelPath : String → String) (fs : LabelFS) (p : String),
       p ∈ findMatches conds images labelPath fs ↔
         p ∈ images ∧ conds ≠ [] ∧
           evalQuerySpec (classCount ((fs (labelPath p)).getD [])) conds
             = true) := by
  refine ⟨evalQueryCode_eq_spec, fun images labelPath fs => rfl, ?_⟩
  intro conds images labelPath fs p
  by_cases hc : conds = []
  · subst hc
    rw [findMatches, if_pos rfl]
    simp
  · rw [findMatches, if_neg hc, List.mem_filter, evalQueryCode_eq_spec]
    constructor
    · exact fun h => ⟨h.1, hc, h.2⟩
    · exact fun h => ⟨h.1, h.2.2⟩

/-! The dataset reducer (yolo_annotator/utils.py, reduce_dataset). -/

/-- The uniform method: deterministic; for each of the k equal float segments
of [0,n) pick int((i + 0.5) * (n / k)), clamped to the valid range. -/
def uniformIndices (n k : Nat) : List Nat :=
  (List.range k).map fun i : Nat =>
    min (Int.toNat ⌊((i : Rat) + 1/2) * ((n : Rat) / (k : Rat))⌋) (n - 1)

/-- The stratified method's segment walk: contiguous segments of size
base = n/k, the first rem = n%k of which get one extra element, with one
random pick per segment; r i is the raw random draw for segment i, reduced
modulo the segment size as randrange does. -/
def stratifiedAux (r : Nat → Nat) (base rem : Nat) :
    Nat → Nat → Nat → List Nat
  | _, _, 0 => []
  | i, start, fuel + 1 =>
    let segSize := base + (if i < rem then 1 else 0)
    (start + r i % segSize) ::
      stratifiedAux r base rem (i + 1) (start + segSize) fuel

/-- The stratified method's kept-index list. -/
def stratifiedIndices (r : Nat → Nat) (n k : Nat) : List Nat :=
  stratifiedAux r (n / k) (n % k) 0 0 k

/-- The reducer's final pass: walk the sorted file list with its enumeration
index, putting files whose index is in the kept-index set into kept_files and
the others into excluded_files. -/
def splitKeep (idxs : List Nat) : Nat → List String → List String × List String
  | _, [] => ([], [])
  | i, f :: fsr =>
    let rest := splitKeep idxs (i + 1) fsr
    if i ∈ idxs then (f :: rest.1, rest.2) else (rest.1, f :: rest.2)

lemma splitKeep_mem (idxs : List Nat) :
    ∀ (l : List String) (i : Nat) (g : String),
      g ∈ l ↔ g ∈ (splitKeep idxs i l).1 ∨ g ∈ (splitKeep idxs i l).2 := by
  intro l
  induction l with
  | nil => intro i g; simp [splitKeep]
  | cons f rest ih =>
    intro i g
    by_cases h : i ∈ idxs
    · simp only [splitKeep, if_pos h, List.mem_cons]
      rw [ih (i + 1) g, or_assoc]
    · simp only [splitKeep, if_neg h, List.mem_cons]
      rw [ih (i + 1) g, or_left_comm]

lemma splitKeep_disjoint (idxs : List Nat) :
    ∀ (l : List String), l.Nodup → ∀ (i : Nat) (g : String),
      g ∈ (splitKeep idxs i l).1 → g ∉ (splitKeep idxs i l).2 := by
  intro l
  induction l with
  | nil =>
    intro _ i g hg
    simp [splitKeep] at hg
  | cons f rest ih =>
    intro hnd i g hg1 hg2
    rw [List.nodup_cons] at hnd
    by_cases h : i ∈ idxs
    · simp only [splitKeep, if_pos h] at hg1 hg2
      rcases List.mem_cons.mp hg1 with rfl | hg1b
      · exact hnd.1 ((splitKeep_mem idxs rest (i + 1) g).mpr (Or.inr hg2))
      · exact ih hnd.2 (i + 1) g hg1b hg2
    · simp only [splitKeep, if_neg h] at hg1 hg2
      rcases List.mem_cons.mp hg2 with rfl | hg2b
      · exact hnd.1 ((splitKeep_mem idxs rest (i + 1) g).mpr (Or.inl hg1))
      · exact ih hnd.2 (i + 1) g hg1 hg2b

lemma splitKeep_fst_length (idxs : List Nat) :
    ∀ (l : List String) (i : Nat),
      (splitKeep idxs i l).1.length
        = ((Finset.Ico i (i + l.length)).filter fun j => j ∈ idxs).card := by
  intro l
  induction l with
  | nil =>
    intro i
    simp [splitKeep]
  | cons f rest ih =>
    intro i
    have hsplit : Finset.Ico i (i + (f :: rest).length)
        = insert i (Finset.Ico (i + 1) ((i + 1) + rest.length)) := by
      rw [List.length_cons]
      have harith : i + (rest.length + 1) = (i + 1) + rest.length := by omega
      rw [harith, ← Nat.Ico_insert_succ_left (show i < (i + 1) + rest.length
        by omega)]
    rw [hsplit, Finset.filter_insert]
    have hnotmem : i ∉ (Finset.Ico (i + 1) ((i + 1) + rest.length)).filter
        fun j => j ∈ idxs := by
      intro hc
      have := (Finset.mem_filter.mp hc).1
      rw [Finset.mem_Ico] at this
      omega
    by_cases h : i ∈ idxs
    · simp only [splitKeep, if_pos h, List.length_cons]
      rw [Finset.card_insert_of_not_mem hnotmem, ih (i + 1)]
    · simp only [splitKeep, if_neg h]
      rw [ih (i + 1)]

lemma filter_mem_card (idxs : List Nat) (n : Nat) (hnd : idxs.Nodup)
    (hlt : ∀ x ∈ idxs, x < n) :
    ((Finset.range n).filter fun j => j ∈ idxs).card = idxs.length := by
  have hset : (Finset.range n).filter (fun j => j ∈ idxs) = idxs.toFinset := by
    ext j
    simp only [Finset.mem_filter, Finset.mem_range, List.mem_toFinset]
    exact ⟨fun h => h.2, fun h => ⟨hlt j h, h⟩⟩
  rw [hset, List.card_toFinset, hnd.dedup]

lemma uniform_floor_nonneg (n k i : Nat) :
    0 ≤ ⌊((i : Rat) + 1/2) * ((n : Rat) / (k : Rat))⌋ := by
  apply Int.floor_nonneg.mpr
  positivity

lemma uniform_floor_lt (n k : Nat) (hk : 0 < k) (hn : 0 < n) {i : Nat}
    (hi : i < k) :
    ⌊((i : Rat) + 1/2) * ((n : Rat) / (k : Rat))⌋ < (n : Int) := by
  apply Int.floor_lt.mpr
  push_cast
  have hklt : (i : Rat) + 1/2 < (k : Rat) := by
    have : (i : Rat) + 1 ≤ (k : Rat) := by exact_mod_cast hi
    linarith
  have hdiv : (0 : Rat) < (n : Rat) / (k : Rat) := by positivity
  have hcancel : (k : Rat) * ((n : Rat) / (k : Rat)) = (n : Rat) := by
    field_simp
  calc ((i : Rat) + 1/2) * ((n : Rat) / (k : Rat))
      < (k : Rat) * ((n : Rat) / (k : Rat)) :=
        mul_lt_mul_of_pos_right hklt hdiv
    _ = (n : Rat) := hcancel

lemma uniform_elem_eq (n k : Nat) (hk : 0 < k) (hn : 0 < n) {i : Nat}
    (hi : i < k) :
    min (Int.toNat ⌊((i : Rat) + 1/2) * ((n : Rat) / (k : Rat))⌋) (n - 1)
      = Int.toNat ⌊((i : Rat) + 1/2) * ((n : Rat) / (k : Rat))⌋ := by
  have h1 := uniform_floor_lt n k hk hn hi
  have h2 := uniform_floor_nonneg n k i
  omega

lemma uniform_floor_strictmono (n k : Nat) (hk : 0 < k) (hkn : k < n)
    {i j : Nat} (hij : i < j) :
    ⌊((i : Rat) + 1/2) * ((n : Rat) / (k : Rat))⌋
      < ⌊((j : Rat) + 1/2) * ((n : Rat) / (k : Rat))⌋ := by
  have hq : (1 : Rat) < (n : Rat) / (k : Rat) := by
    rw [one_lt_div (by exact_mod_cast hk)]
    exact_mod_cast hkn
  have hij2 : (i : Rat) + 1 ≤ (j : Rat) := by exact_mod_cast hij
  have key : ((i : Rat) + 1/2) * ((n : Rat) / (k : Rat)) + 1
      ≤ ((j : Rat) + 1/2) * ((n : Rat) / (k : Rat)) := by
    nlinarith
  calc ⌊((i : Rat) + 1/2) * ((n : Rat) / (k : Rat))⌋
      < ⌊((i : Rat) + 1/2) * ((n : Rat) / (k : Rat))⌋ + 1 := by omega
    _ = ⌊((i : Rat) + 1/2) * ((n : Rat) / (k : Rat)) + 1⌋ :=
        (Int.floor_add_one _).symm
    _ ≤ ⌊((j : Rat) + 1/2) * ((n : Rat) / (k : Rat))⌋ := Int.floor_le_floor key

lemma uniform_length (n k : Nat) : (uniformIndices n k).length = k := by
  rw [uniformIndices, List.length_map, List.length_range]

lemma uniform_bound (n k : Nat) (hk : 0 < k) (hkn : k < n) :
    ∀ x ∈ uniformIndices n k, x < n := by
  intro x hx
  rw [uniformIndices, List.mem_map] at hx
  obtain ⟨i, hi, rfl⟩ := hx
  have hn : 0 < n := lt_trans hk hkn
  omega

lemma uniform_nodup (n k : Nat) (hk : 0 < k) (hkn : k < n) :
    (uniformIndices n k).Nodup := by
  have hn : 0 < n := lt_trans hk hkn
  rw [uniformIndices]
  apply List.Nodup.map_on ?_ (List.nodup_range k)
  intro x hx y hy hxy
  rw [List.mem_range] at hx hy
  rw [uniform_elem_eq n k hk hn hx, uniform_elem_eq n k hk hn hy] at hxy
  rcases lt_trichotomy x y with hlt | heq | hgt
  · exfalso
    have hm := uniform_floor_strictmono n k hk hkn hlt
    have := uniform_floor_nonneg n k x
    omega
  · exact heq
  · exfalso
    have hm := uniform_floor_strictmono n k hk hkn hgt
    have := uniform_floor_nonneg n k y
    omega

/-- The total size of the fuel segments of the stratified walk starting at
segment i. -/
def segTotal (base rem : Nat) : Nat → Nat → Nat
  | 0, _ => 0
  | fuel + 1, i => (base + (if i < rem then 1 else 0)) + segTotal base rem fuel (i + 1)

lemma segTotal_closed (base rem : Nat) :
    ∀ (fuel i : Nat),
      segTotal base rem fuel i
        = fuel * base + (min rem (i + fuel) - min rem i) := by
  intro fuel
  induction fuel with
  | zero => intro i; simp [segTotal]
  | succ fuel ih =>
    intro i
    rw [segTotal, ih (i + 1), Nat.succ_mul]
    by_cases h : i < rem
    · simp only [if_pos h]
      omega
    · simp only [if_neg h]
      omega

lemma stratifiedAux_length (r : Nat → Nat) (base rem : Nat) :
    ∀ (fuel i start : Nat),
      (stratifiedAux r base rem i start fuel).length = fuel := by
  intro fuel
  induction fuel with
  | zero => intro i start; rfl
  | succ fuel ih =>
    intro i start
    rw [stratifiedAux, List.length_cons, ih]

lemma stratifiedAux_bounds (r : Nat → Nat) (base rem : Nat) (hb : 0 < base) :
    ∀ (fuel i start : Nat) (x : Nat),
      x ∈ stratifiedAux r base rem i start fuel →
      start ≤ x ∧ x < start + segTotal base rem fuel i := by
  intro fuel
  induction fuel with
  | zero =>
    intro i start x hx
    simp [stratifiedAux] at hx
  | succ fuel ih =>
    intro i start x hx
    simp only [stratifiedAux, List.mem_cons] at hx
    have hseg : 0 < base + (if i < rem then 1 else 0) :=
      lt_of_lt_of_le hb (Nat.le_add_right _ _)
    have hmod : r i % (base + (if i < rem then 1 else 0))
        < base + (if i < rem then 1 else 0) := Nat.mod_lt _ hseg
    have hst : segTotal base rem (fuel + 1) i
        = (base + (if i < rem then 1 else 0)) + segTotal base rem fuel (i + 1) :=
      rfl
    rcases hx with rfl | hx
    · constructor
      · exact Nat.le_add_right _ _
      · omega
    · have := ih (i + 1) (start + (base + (if i < rem then 1 else 0))) x hx
      omega

lemma stratifiedAux_pairwise (r : Nat → Nat) (base rem : Nat) (hb : 0 < base) :
    ∀ (fuel i start : Nat),
      List.Pairwise (· < ·) (stratifiedAux r base rem i start fuel) := by
  intro fuel
  induction fuel with
  | zero =>
    intro i start
    exact List.Pairwise.nil
  | succ fuel ih =>
    intro i start
    rw [stratifiedAux]
    refine List.Pairwise.cons ?_ (ih (i + 1) _)
    intro x hx
    have hseg : 0 < base + (if i < rem then 1 else 0) :=
      lt_of_lt_of_le hb (Nat.le_add_right _ _)
    have hmod : r i % (base + (if i < rem then 1 else 0))
        < base + (if i < rem then 1 else 0) := Nat.mod_lt _ hseg
    have := (stratifiedAux_bounds r base rem hb fuel (i + 1)
      (start + (base + (if i < rem then 1 else 0))) x hx).1
    omega

lemma stratified_length (r : Nat → Nat) (n k : Nat) :
    (stratifiedIndices r n k).length = k :=
  stratifiedAux_length r (n / k) (n % k) k 0 0

lemma stratified_base_pos (n k : Nat) (hk : 0 < k) (hkn : k < n) :
    0 < n / k :=
  Nat.div_pos (le_of_lt hkn) hk

lemma stratified_bound (r : Nat → Nat) (n k : Nat) (hk : 0 < k)
    (hkn : k < n) : ∀ x ∈ stratifiedIndices r n k, x < n := by
  intro x hx
  have hb := stratified_base_pos n k hk hkn
  have := stratifiedAux_bounds r (n / k) (n % k) hb k 0 0 x hx
  have hclosed := segTotal_closed (n / k) (n % k) k 0
  have hmod : n % k < k := Nat.mod_lt n hk
  have hdm : k * (n / k) + n % k = n := Nat.div_add_mod n k
  omega

lemma stratified_nodup (r : Nat → Nat) (n k : Nat) (hk : 0 < k)
    (hkn : k < n) : (stratifiedIndices r n k).Nodup := by
  have hb := stratified_base_pos n k hk hkn
  have hp := stratifiedAux_pairwise r (n / k) (n % k) hb k 0 0
  exact hp.imp (fun h => Nat.ne_of_lt h)

/-- C8: for a de-duplicated (sorted) file list of length n and a target k
with 0 < k < n, the reducer's kept/excluded split is a partition for both
methods and any random draw: every file lands in kept or excluded, no file
lands in both, and exactly k files are kept. -/
theorem reduce_dataset_partition (files : List String) (k : Nat)
    (r : Nat → Nat) (idxs : List Nat)
    (hm : idxs = uniformIndices files.length k ∨
      idxs = stratifiedIndices r files.length k)
    (hnd : files.Nodup) (hk : 0 < k) (hkn : k < files.length) :
    (∀ f, f ∈ files ↔
      f ∈ (splitKeep idxs 0 files).1 ∨ f ∈ (splitKeep idxs 0 files).2) ∧
    (∀ f, f ∈ (splitKeep idxs 0 files).1 →
      f ∉ (splitKeep idxs 0 files).2) ∧
    (splitKeep idxs 0 files).1.length = k := by
  have hnd2 : idxs.Nodup := by
    rcases hm with rfl | rfl
    · exact uniform_nodup files.length k hk hkn
    · exact stratified_nodup r files.length k hk hkn
  have hbound : ∀ x ∈ idxs, x < files.length := by
    rcases hm with rfl | rfl
    · exact uniform_bound files.length k hk hkn
    · exact stratified_bound r files.length k hk hkn
  have hlen : idxs.length = k := by
    rcases hm with rfl | rfl
    · exact uniform_length files.length k
    · exact stratified_length r files.length k
  refine ⟨fun f => splitKeep_mem idxs files 0 f,
    fun f => splitKeep_disjoint idxs files hnd 0 f, ?_⟩
  rw [splitKeep_fst_length idxs files 0]
  rw [show (0 + files.length) = files.length by omega, ← Finset.range_eq_Ico]
  rw [filter_mem_card idxs files.length hnd2 hbound, hlen]

/-- Witness for C8 at a concrete dataset: three distinct files reduced to
k = 1 with the uniform method partition into one kept and two excluded. -/
theorem reduce_dataset_partition_witness :
    (∀ f, f ∈ ["a", "b", "c"] ↔
      f ∈ (splitKeep (uniformIndices (["a", "b", "c"] : List String).length 1)
        0 ["a", "b", "c"]).1 ∨
      f ∈ (splitKeep (uniformIndices (["a", "b", "c"] : List String).length 1)
        0 ["a", "b", "c"]).2) ∧
    (∀ f, f ∈ (splitKeep (uniformIndices (["a", "b", "c"] : List String).length
        1) 0 ["a", "b", "c"]).1 →
      f ∉ (splitKeep (uniformIndices (["a", "b", "c"] : List String).length 1)
        0 ["a", "b", "c"]).2) ∧
    (splitKeep (uniformIndices (["a", "b", "c"] : List String).length 1) 0
      ["a", "b", "c"]).1.length = 1 :=
  reduce_dataset_partition ["a", "b", "c"] 1 (fun _ => 0)
    (uniformIndices (["a", "b", "c"] : List String).length 1) (Or.inl rfl)
    (by decide) (by decide) (by decide)

/-! The undo machinery (gui.py, undo_action) over an explicit editor state. -/

/-- The editor state the undo paths touch: the two annotation-undo/redo
stacks, the deletion-undo stack of (image path, label path, image bytes,
label text) tuples, the open image and its in-memory annotation list, the
full and filtered path lists, and the label/image file stores (image file
contents are opaque numbers). -/
structure EditorState where
  annUndo : List (String × List Ann)
  annRedo : List (String × List Ann)
  delStack : List (String × String × Option Nat × Option (List Ann))
  currentFile : Option String
  hasImage : Bool
  currentIndex : Int
  anns : List Ann
  imagePaths : List String
  filteredPaths : List String
  lblFs : LabelFS
  imgFs : String → Option Nat

/-- save_annotations: no-op without an open image; otherwise resolve the path
(current file, else the filtered list at the current index when valid) and
write the clamped 6-decimal records to its label path. -/
def saveAnns (labelPath : String → String) (s : EditorState) : EditorState :=
  if ¬ s.hasImage then s
  else
    let pOpt := match s.currentFile with
      | some p => some p
      | none =>
        if s.filteredPaths = [] ∨ s.currentIndex < 0 ∨
            (s.filteredPaths.length : Int) ≤ s.currentIndex then none
        else s.filteredPaths.get? s.currentIndex.toNat
    match pOpt with
    | none => s
    | some p =>
      { s with lblFs := fsWrite s.lblFs (labelPath p) (saveAnnList s.anns) }

/-- load_image at an index of the filtered list: bail out on an invalid
index; force-save the open image first; open the target (a missing image file
clears the state); read its label file with the same-directory fallback,
sanitize, and self-heal (re-save) when clamping changed a non-empty list. -/
def loadImage (labelPath sameDirTxt : String → String) (s : EditorState)
    (index : Int) : EditorState :=
  if s.filteredPaths = [] then s
  else if index < 0 ∨ (s.filteredPaths.length : Int) ≤ index then s
  else
    let s1 := if s.hasImage ∧ s.currentFile.isSome then saveAnns labelPath s
      else s
    let s2 := { s1 with currentIndex := index }
    match s2.filteredPaths.get? index.toNat with
    | none => s2
    | some p =>
      if (s2.imgFs p).isNone then
        { s2 with hasImage := false, currentFile := none, anns := [] }
      else
        let s3 := { s2 with hasImage := true, currentFile := some p }
        let readPath := if (s3.lblFs (labelPath p)).isSome then labelPath p
          else sameDirTxt p
        let raw := (s3.lblFs readPath).getD []
        let sanitized := loadAnnList raw
        let s4 := { s3 with anns := sanitized }
        if sanitized ≠ raw ∧ sanitized ≠ [] then saveAnns labelPath s4
        else s4

/-- The deletion-undo fallback block of undo_action: pop the deletion stack,
restore the image bytes and the label text that were captured (when
non-empty), re-insert the image path into the sorted full list, refresh the
filtered list (refreshFn stands for the active filter of
_refresh_file_list), and navigate to the restored image when visible. -/
def tryDeletionUndo (labelPath sameDirTxt : String → String)
    (refreshFn : List String → LabelFS → List String) (s : EditorState) :
    EditorState :=
  match s.delStack with
  | [] => s
  | (ip, lp, imgd, lbld) :: rest =>
    let s1 := { s with delStack := rest }
    let s2 := match imgd with
      | some d => { s1 with imgFs :=
          fun q => (if q = ip then some d else s1.imgFs q) }
      | none => s1
    let s3 := match lbld with
      | some t => { s2 with lblFs := fsWrite s2.lblFs lp t }
      | none => s2
    let s4 := if ip ∈ s3.imagePaths then s3
      else { s3 with
        imagePaths := (ip :: s3.imagePaths).mergeSort (fun a b =>
          decide (a ≤ b)) }
    let s5 := { s4 with filteredPaths := refreshFn s4.imagePaths s4.lblFs }
    if ip ∈ s5.filteredPaths then
      loadImage labelPath sameDirTxt s5 ((s5.filteredPaths.indexOf ip : Nat) : Int)
    else s5

/-- undo_action: try the annotation-undo stack first — pop it, push the
current state onto the redo stack, and when the popped entry targets the
current image or one in the filtered list, apply and re-save it; otherwise
(including whenever the annotation-undo stack is empty) fall through to the
deletion-undo block. -/
def undoAction (labelPath sameDirTxt : String → String)
    (refreshFn : List String → LabelFS → List String) (s : EditorState) :
    EditorState :=
  match s.annUndo with
  | (fp, old) :: rest =>
    let s1 := { s with annUndo := rest }
    let s2 := match s1.currentFile with
      | some cp => { s1 with annRedo := (cp, s1.anns) :: s1.annRedo }
      | none => s1
    if s2.currentFile = some fp then
      saveAnns labelPath { s2 with anns := old }
    else if fp ∈ s2.filteredPaths then
      let s3 := loadImage labelPath sameDirTxt s2
        ((s2.filteredPaths.indexOf fp : Nat) : Int)
      saveAnns labelPath { s3 with anns := old }
    else
      tryDeletionUndo labelPath sameDirTxt refreshFn s2
  | [] => tryDeletionUndo labelPath sameDirTxt refreshFn s

lemma saveAnns_delStack (labelPath : String → String) (s : EditorState) :
    (saveAnns labelPath s).delStack = s.delStack := by
  unfold saveAnns
  dsimp only
  repeat' split
  all_goals rfl

lemma saveAnns_annUndo (labelPath : String → String) (s : EditorState) :
    (saveAnns labelPath s).annUndo = s.annUndo := by
  unfold saveAnns
  dsimp only
  repeat' split
  all_goals rfl

lemma saveAnns_imgFs (labelPath : String → String) (s : EditorState) :
    (saveAnns labelPath s).imgFs = s.imgFs := by
  unfold saveAnns
  dsimp only
  repeat' split
  all_goals rfl

lemma loadImage_delStack (labelPath sameDirTxt : String → String)
    (s : EditorState) (index : Int) :
    (loadImage labelPath sameDirTxt s index).delStack = s.delStack := by
  unfold loadImage
  dsimp only
  repeat' split
  all_goals simp only [saveAnns_delStack]

lemma loadImage_annUndo (labelPath sameDirTxt : String → String)
    (s : EditorState) (index : Int) :
    (loadImage labelPath sameDirTxt s index).annUndo = s.annUndo := by
  unfold loadImage
  dsimp only
  repeat' split
  all_goals simp only [saveAnns_annUndo]

lemma loadImage_imgFs (labelPath sameDirTxt : String → String)
    (s : EditorState) (index : Int) :
    (loadImage labelPath sameDirTxt s index).imgFs = s.imgFs := by
  unfold loadImage
  dsimp only
  repeat' split
  all_goals simp only [saveAnns_imgFs]

lemma tryDeletionUndo_delStack (labelPath sameDirTxt : String → String)
    (refreshFn : List String → LabelFS → List String) (s : EditorState) :
    (tryDeletionUndo labelPath sameDirTxt refreshFn s).delStack
      = s.delStack.tail := by
  unfold tryDeletionUndo
  rcases hd : s.delStack with _ | ⟨⟨ip, lp, imgd, lbld⟩, rest⟩
  · simp [hd]
  · dsimp only
    repeat' split
    all_goals first
      | rfl
      | (rw [loadImage_delStack] <;> rfl)

lemma tryDeletionUndo_annUndo (labelPath sameDirTxt : String → String)
    (refreshFn : List String → LabelFS → List String) (s : EditorState) :
    (tryDeletionUndo labelPath sameDirTxt refreshFn s).annUndo
      = s.annUndo := by
  unfold tryDeletionUndo
  rcases hd : s.delStack with _ | ⟨⟨ip, lp, imgd, lbld⟩, rest⟩
  · simp [hd]
  · dsimp only
    repeat' split
    all_goals first
      | rfl
      | (rw [loadImage_annUndo] <;> rfl)

lemma tryDeletionUndo_restores_img (labelPath sameDirTxt : String → String)
    (refreshFn : List String → LabelFS → List String) (s : EditorState)
    (ip lp : String) (d : Nat) (t : Option (List Ann))
    (rest : List (String × String × Option Nat × Option (List Ann)))
    (hd : s.delStack = (ip, lp, some d, t) :: rest) :
    (tryDeletionUndo labelPath sameDirTxt refreshFn s).imgFs ip = some d := by
  unfold tryDeletionUndo
  rw [hd]
  dsimp only
  repeat' split
  all_goals first
    | (rw [loadImage_imgFs] <;> simp)
    | simp

/-- C3 (amended): Undo probes the two stacks in fixed priority order, with
one extra fall-through the claim misses.  When the annotation-undo stack is
empty, the deletion-undo stack is popped (and the captured image bytes are
restored).  When the popped annotation entry targets the current image or an
image in the filtered list, it is applied and the deletion stack is not
consulted.  But when the annotation-undo stack is non-empty and its popped
entry targets an image that is neither current nor in the filtered list, the
entry is discarded without being applied and the call falls through and pops
the deletion-undo stack as well — so a non-empty annotation stack does not
always protect the deletion stack. -/
theorem undo_two_stack_priority_amended (labelPath sameDirTxt : String → String)
    (refreshFn : List String → LabelFS → List String) (s : EditorState) :
    (s.annUndo = [] →
      (undoAction labelPath sameDirTxt refreshFn s).delStack = s.delStack.tail ∧
      (∀ ip lp d t rest2, s.delStack = (ip, lp, some d, t) :: rest2 →
        (undoAction labelPath sameDirTxt refreshFn s).imgFs ip = some d)) ∧
    (∀ fp old rest, s.annUndo = (fp, old) :: rest →
      s.currentFile = some fp ∨ fp ∈ s.filteredPaths →
      (undoAction labelPath sameDirTxt refreshFn s).delStack = s.delStack ∧
      (undoAction labelPath sameDirTxt refreshFn s).annUndo = rest) ∧
    (∀ fp old rest, s.annUndo = (fp, old) :: rest →
      s.currentFile ≠ some fp → fp ∉ s.filteredPaths →
      (undoAction labelPath sameDirTxt refreshFn s).annUndo = rest ∧
      (undoAction labelPath sameDirTxt refreshFn s).delStack
        = s.delStack.tail) := by
  obtain ⟨au, ar, ds, cf, hi, ci, an, ips, fps, lfs, ifs⟩ := s
  refine ⟨?_, ?_, ?_⟩
  · intro h0
    dsimp only at h0
    subst h0
    rw [undoAction]
    refine ⟨tryDeletionUndo_delStack _ _ _ _, ?_⟩
    intro ip lp d t rest2 hd
    exact tryDeletionUndo_restores_img _ _ _ _ ip lp d t rest2 hd
  · intro fp old rest hu hvis
    dsimp only at hu hvis
    subst hu
    rw [undoAction]
    dsimp only
    cases cf with
    | none =>
      dsimp only
      rcases hvis with hcur | hmem
      · exact absurd hcur (by simp)
      · rw [if_neg (by simp), if_pos hmem, saveAnns_delStack,
          saveAnns_annUndo]
        constructor
        · rw [loadImage_delStack]
        · rw [loadImage_annUndo]
    | some cp =>
      dsimp only
      by_cases hcur : (some cp : Option String) = some fp
      · rw [if_pos hcur, saveAnns_delStack, saveAnns_annUndo]
        exact ⟨rfl, rfl⟩
      · rcases hvis with hcv | hmem
        · exact absurd hcv hcur
        · rw [if_neg hcur, if_pos hmem, saveAnns_delStack, saveAnns_annUndo]
          constructor
          · rw [loadImage_delStack]
          · rw [loadImage_annUndo]
  · intro fp old rest hu hncur hnmem
    dsimp only at hu hncur hnmem
    subst hu
    rw [undoAction]
    dsimp only
    cases cf with
    | none =>
      dsimp only
      rw [if_neg (by simp), if_neg hnmem]
      exact ⟨tryDeletionUndo_annUndo _ _ _ _, tryDeletionUndo_delStack _ _ _ _⟩
    | some cp =>
      dsimp only
      rw [if_neg hncur, if_neg hnmem]
      exact ⟨tryDeletionUndo_annUndo _ _ _ _, tryDeletionUndo_delStack _ _ _ _⟩

/-- A concrete editor state: the annotation-undo stack holds one entry for
image a, which is neither the current image c nor in the filtered list, and
the deletion-undo stack holds one entry for image b. -/
def undoDemoState : EditorState where
  annUndo := [("a", [])]
  annRedo := []
  delStack := [("b", "bl", some 7, some [])]
  currentFile := some "c"
  hasImage := true
  currentIndex := 0
  anns := []
  imagePaths := ["b", "c"]
  filteredPaths := ["c"]
  lblFs := fun _ => none
  imgFs := fun _ => some 1

/-- C3 counterexample: at undoDemoState the annotation-undo stack is
non-empty when Undo is invoked, yet the deletion-undo stack is consulted in
the same call (its entry is popped), because the popped annotation entry
targets an image that is neither current nor in the filtered list. -/
theorem undo_two_stack_priority_counterexample :
    undoDemoState.annUndo ≠ [] ∧
    undoDemoState.delStack ≠ [] ∧
    (undoAction (fun p => p ++ ".l") (fun p => p ++ ".s") (fun ips _ => ips)
      undoDemoState).delStack = [] := by
  refine ⟨by simp [undoDemoState], by simp [undoDemoState], ?_⟩
  unfold undoDemoState undoAction
  dsimp only
  rw [if_neg (by decide), if_neg (by decide), tryDeletionUndo_delStack]
  rfl

/-- Witness for C3 (amended) at a concrete state with an empty
annotation-undo stack: the deletion entry is popped and the deleted image
bytes are restored. -/
theorem undo_two_stack_priority_amended_witness :
    (undoAction (fun p => p ++ ".l") (fun p => p ++ ".s") (fun ips _ => ips)
        { undoDemoState with annUndo := [] }).delStack
      = ({ undoDemoState with annUndo := [] } : EditorState).delStack.tail ∧
    (undoAction (fun p => p ++ ".l") (fun p => p ++ ".s") (fun ips _ => ips)
        { undoDemoState with annUndo := [] }).imgFs "b" = some 7 := by
  have h := (undo_two_stack_priority_amended (fun p => p ++ ".l")
    (fun p => p ++ ".s") (fun ips _ => ips)
    { undoDemoState with annUndo := [] }).1 rfl
  exact ⟨h.1, h.2 "b" "bl" 7 (some []) [] rfl⟩

end YoloTool
